import Mathlib

/-!
# Korka: the application-status workflow of `express/index.js`

A shallow embedding of the three stateful request handlers of the Express
server (`POST /applications`, `PUT /admin-applications/:id/status`,
`POST /reviews`) over an explicit relational store, followed by the
properties of the workflow that the specification states.

Modelling conventions
* A table is a list of rows in insertion order; a `SELECT` is a `List.filter`,
  `rows[0]` is `List.head?`, an `UPDATE ... WHERE` is a `List.map`.
* Every call to the persistence layer may throw: the handler receives an
  oracle `fails : DbCall → Bool` telling which calls throw, and every handler
  returns, besides its response and the committed store, the list of
  persistence calls it issued.  The rollbacks of the `try` block and the
  rollback of the `catch` block are two names of the oracle, so that either may
  throw without the other.  A handler whose `catch` block throws sends no
  answer of its own.
* The committed store is the store as other connections see it when the
  handler ends: a transaction that was neither committed nor rolled back has
  written nothing to it.
* Identifiers are natural numbers; `0` is the falsy value (it also stands for
  an absent field).  Optional body fields are `Option`s.
* JavaScript numbers that are compared with `<` (the rating) are rationals;
  time instants are integers (milliseconds since the epoch).
* `new Date(startDate)` reads a string of the date-only form `YYYY-MM-DD` as
  midnight UTC of that day, as ECMAScript prescribes; what it makes of other
  strings is a parameter.  `setHours(0, 0, 0, 0)` follows the rules of the
  server's time zone, which is a parameter too.
-/

namespace Korka

/-! ## Data model -/

/-- Column `users.role`. -/
inductive Role where
  | user
  | admin
  deriving DecidableEq, Repr

/-- Column `applications.status`: the three values of the handler's list
`['new', 'in_progress', 'completed']`. -/
inductive Status where
  | new
  | in_progress
  | completed
  deriving DecidableEq, Repr

/-- Column `applications.payment_method`: the two values of the handler's list
`['cash', 'phone_transfer']`. -/
inductive PaymentMethod where
  | cash
  | phone_transfer
  deriving DecidableEq, Repr

/-- Row of `users` (the columns the workflow reads). -/
structure User where
  user_id : Nat
  role : Role
  deriving DecidableEq, Repr

/-- Row of `courses` (the columns the workflow reads). -/
structure Course where
  course_id : Nat
  is_active : Bool
  deriving DecidableEq, Repr

/-- Row of `applications`: the columns written by the `INSERT` of
`POST /applications` and by the `UPDATE` of the status handler.  The value of
`updated_at` at insertion is a column default of the schema, which is not part
of the sources; it is taken to be the insertion time. -/
structure Application where
  application_id : Nat
  user_id : Nat
  course_id : Nat
  desired_start_date : String
  payment_method : PaymentMethod
  status : Status
  updated_at : Int
  deriving DecidableEq, Repr

/-- Row of `application_status_history`: exactly the columns both `INSERT`s
write. -/
structure StatusHistoryEntry where
  application_id : Nat
  old_status : Option Status
  new_status : Status
  changed_by : Option Nat
  change_comment : String
  deriving DecidableEq, Repr

/-- Row of `reviews`: the generated key and the three columns the `INSERT`
writes.  `rating` is the bound parameter as received. -/
structure Review where
  review_id : Nat
  user_id : Nat
  application_id : Nat
  rating : ℚ
  deriving DecidableEq

/-- The relational store.  `nextApplicationId` and `nextReviewId` are the
auto-increment counters behind `result.insertId`. -/
structure Store where
  users : List User
  courses : List Course
  applications : List Application
  nextApplicationId : Nat
  history : List StatusHistoryEntry
  reviews : List Review
  nextReviewId : Nat
  deriving DecidableEq

/-- The calls a handler makes to the persistence layer. -/
inductive DbCall where
  | getConnection
  | beginTransaction
  | selectStatus
  | updateStatus
  | selectAdmin
  | insertHistory
  | commit
  /-- The `await connection.rollback()` of the `try` block (the "not found" and
  the "already set" exits). -/
  | rollback
  /-- The `await connection.rollback()` of the `catch` block. -/
  | catchRollback
  /-- The `connection.release()` of the `finally` block. -/
  | release
  /-- Not a call of its own: the oracle's answer at this name tells whether the
  `UPDATE` of the status handler, when it does not throw, reports
  `affectedRows = 0` because the row is gone by the time it runs. -/
  | updateFindsNoRow
  | selectUser
  | selectCourse
  | insertApplication
  | insertCreationHistory
  | selectApplication
  | selectReviews
  | insertReview
  deriving DecidableEq, Repr

/-- What a handler leaves behind: the response sent, the committed store and
the persistence calls issued, in order. -/
structure Outcome (ρ : Type) where
  response : ρ
  store : Store
  calls : List DbCall

/-- The oracle under which no persistence call throws. -/
def noFailure : DbCall → Bool := fun _ => false

/-! ## `PUT /admin-applications/:id/status` -/

/-- The test `['new', 'in_progress', 'completed'].includes(newStatus)`, returning
the status the string denotes. -/
def Status.ofString? : String → Option Status
  | "new" => some Status.new
  | "in_progress" => some Status.in_progress
  | "completed" => some Status.completed
  | _ => none

/-- The responses of the status handler, one per `res.json` call. -/
inductive StatusResponse where
  /-- Code 400: the status is required. -/
  | statusRequired
  /-- Code 400: the status is not one of the three. -/
  | invalidStatus
  /-- Code 404: no such application. -/
  | notFound
  /-- Code 200: success without `data`, the status is already set. -/
  | alreadySet
  /-- Code 200: success with `data` carrying `applicationId`, `oldStatus`, `newStatus`. -/
  | updated (applicationId : Nat) (oldStatus newStatus : Status)
  /-- Code 500: the `catch` block. -/
  | serverError
  /-- No answer of the handler: the rollback of the `catch` block threw, so the
  handler was left before `res.status(500).json` and sends nothing itself. -/
  | unanswered
  deriving DecidableEq, Repr

/-- The HTTP status code of each response (`res.status(...)`, 200 by default);
0 where the handler sends no answer, hence no status line, itself. -/
def StatusResponse.httpStatus : StatusResponse → Nat
  | .statusRequired => 400
  | .invalidStatus => 400
  | .notFound => 404
  | .alreadySet => 200
  | .updated _ _ _ => 200
  | .serverError => 500
  | .unanswered => 0

/-- The body's `success` flag. -/
def StatusResponse.success : StatusResponse → Bool
  | .alreadySet => true
  | .updated _ _ _ => true
  | _ => false

/-- The rows of `SELECT status FROM applications WHERE application_id = ?`. -/
def currentApps (db : Store) (applicationId : Nat) : List Application :=
  db.applications.filter (fun a => a.application_id == applicationId)

/-- What the `UPDATE` of the status handler does to one row: the rows with the
given key get the new status and the current time stamp. -/
def setStatus (now : Int) (st : Status) (i : Nat) (a : Application) : Application :=
  if a.application_id == i then { a with status := st, updated_at := now } else a

/-- The statement
`UPDATE applications SET status = ?, updated_at = CURRENT_TIMESTAMP WHERE application_id = ?`. -/
def updateApplicationStatus (now : Int) (newStatus : Status) (applicationId : Nat)
    (db : Store) : Store :=
  { db with applications := db.applications.map (setStatus now newStatus applicationId) }

/-- The rows of `SELECT user_id FROM users WHERE user_id = ? AND role = "admin"`. -/
def adminUsers (db : Store) (adminId : Nat) : List User :=
  db.users.filter (fun u => u.user_id == adminId && u.role == Role.admin)

/-- The comment of a change nobody is credited with. -/
def systemComment : String := "Статус изменен системным администратором"

/-- The comment of a change credited to a stored administrator. -/
def adminComment (adminId : Nat) : String :=
  "Статус изменен администратором ID: " ++ toString adminId

/-- The pair `(changedById, changeComment)` once the administrator rows are
known: the defaults, overwritten when a row was found. -/
def attribution (adminId : Nat) (rows : List User) : Option Nat × String :=
  if rows.length > 0 then (some adminId, adminComment adminId)
  else (none, systemComment)

/-- The values of `changedById` and `changeComment` when the history `INSERT`
is reached. -/
def changedBy (db : Store) (adminId : Option Nat) : Option Nat × String :=
  match adminId with
  | none => (none, systemComment)
  | some aid => if aid = 0 then (none, systemComment) else attribution aid (adminUsers db aid)

/-- The history `INSERT` of the status handler. -/
def insertStatusHistory (e : StatusHistoryEntry) (db : Store) : Store :=
  { db with history := db.history ++ [e] }

/-- The `catch` and `finally` blocks once a connection exists; `pre` is the log
up to the call that threw.  The transaction is rolled back and the 500 answer
is sent; when the rollback throws as well the handler is left before
`res.status(500).json`.  In both cases the connection is released, and what
`release` does cannot change the answer or the store any more. -/
def catchBlock (fails : DbCall → Bool) (db : Store) (pre : List DbCall) :
    Outcome StatusResponse :=
  if fails .catchRollback then
    ⟨.unanswered, db, pre ++ [.catchRollback, .release]⟩
  else
    ⟨.serverError, db, pre ++ [.catchRollback, .release]⟩

/-- The tail of the transaction, from the history `INSERT` on; `tx` is the
store as seen inside the transaction, `db` the committed store. -/
def recordAndCommit (fails : DbCall → Bool) (db tx : Store) (applicationId : Nat)
    (oldStatus newStatus : Status) (who : Option Nat × String)
    (pre : List DbCall) : Outcome StatusResponse :=
  if fails .insertHistory then
    catchBlock fails db (pre ++ [.insertHistory])
  else
    let tx2 := insertStatusHistory
      { application_id := applicationId, old_status := some oldStatus,
        new_status := newStatus, changed_by := who.1, change_comment := who.2 } tx
    if fails .commit then
      catchBlock fails db (pre ++ [.insertHistory, .commit])
    else
      ⟨.updated applicationId oldStatus newStatus, tx2,
        pre ++ [.insertHistory, .commit, .release]⟩

/-- The handler of `PUT /admin-applications/:id/status` (`transitionStatus` in
the specification).  `newStatus = none` is an absent field; `adminId = none` is
an absent field and `some 0` the id of the built-in administrator.  The
rollbacks that precede the "not found" and the "already set" answers may throw,
which leads to the `catch` block.  The oracle is not read at `release`: it runs
in the `finally` block, after the answer was sent or the `catch` block was
left, so that its throw changes neither the answer nor the store. -/
def putAdminApplicationsStatus (fails : DbCall → Bool) (now : Int) (db : Store)
    (applicationId : Nat) (newStatus : Option String) (adminId : Option Nat) :
    Outcome StatusResponse :=
  match newStatus with
  | none => ⟨.statusRequired, db, []⟩
  | some str =>
    if str = "" then ⟨.statusRequired, db, []⟩
    else
      match Status.ofString? str with
      | none => ⟨.invalidStatus, db, []⟩
      | some newSt =>
        if fails .getConnection then ⟨.serverError, db, [.getConnection]⟩
        else if fails .beginTransaction then
          catchBlock fails db [.getConnection, .beginTransaction]
        else if fails .selectStatus then
          catchBlock fails db [.getConnection, .beginTransaction, .selectStatus]
        else
          match (currentApps db applicationId).head? with
          | none =>
            if fails .rollback then
              catchBlock fails db
                [.getConnection, .beginTransaction, .selectStatus, .rollback]
            else
              ⟨.notFound, db,
                [.getConnection, .beginTransaction, .selectStatus, .rollback, .release]⟩
          | some row =>
            let oldStatus := row.status
            if oldStatus = newSt then
              if fails .rollback then
                catchBlock fails db
                  [.getConnection, .beginTransaction, .selectStatus, .rollback]
              else
                ⟨.alreadySet, db,
                  [.getConnection, .beginTransaction, .selectStatus, .rollback, .release]⟩
            else if fails .updateStatus then
              catchBlock fails db
                [.getConnection, .beginTransaction, .selectStatus, .updateStatus]
            else
              let affectedRows :=
                if fails .updateFindsNoRow then 0 else (currentApps db applicationId).length
              let tx := updateApplicationStatus now newSt applicationId db
              if affectedRows = 0 then
                catchBlock fails db
                  [.getConnection, .beginTransaction, .selectStatus, .updateStatus]
              else
                match adminId with
                | none =>
                  recordAndCommit fails db tx applicationId oldStatus newSt
                    (none, systemComment)
                    [.getConnection, .beginTransaction, .selectStatus, .updateStatus]
                | some aid =>
                  if aid = 0 then
                    recordAndCommit fails db tx applicationId oldStatus newSt
                      (none, systemComment)
                      [.getConnection, .beginTransaction, .selectStatus, .updateStatus]
                  else if fails .selectAdmin then
                    catchBlock fails db
                      [.getConnection, .beginTransaction, .selectStatus, .updateStatus,
                        .selectAdmin]
                  else
                    recordAndCommit fails db tx applicationId oldStatus newSt
                      (attribution aid (adminUsers tx aid))
                      [.getConnection, .beginTransaction, .selectStatus, .updateStatus,
                        .selectAdmin]

/-! ## `POST /applications` -/

/-- The test `['cash', 'phone_transfer'].includes(paymentMethod)`, returning the
method the string denotes. -/
def PaymentMethod.ofString? : String → Option PaymentMethod
  | "cash" => some PaymentMethod.cash
  | "phone_transfer" => some PaymentMethod.phone_transfer
  | _ => none

/-- Milliseconds in a day. -/
def msPerDay : Int := 86400000

/-- The time zone of the server's clock, as the two readings of the offset of
local time from UTC (in milliseconds, positive ahead of UTC) that ECMAScript's
`LocalTZA` gives: `ofInstant t` is the offset in force at the UTC instant `t`,
`ofLocal t` the offset taken for the local time value `t`.  Both follow the
rules of the zone, daylight saving included. -/
structure Zone where
  ofInstant : Int → Int
  ofLocal : Int → Int

/-- A zone whose offset never changes. -/
def Zone.fixed (offset : Int) : Zone :=
  { ofInstant := fun _ => offset, ofLocal := fun _ => offset }

/-- The calendar day (days since the epoch) that the clock of the zone shows at
the instant `t`. -/
def localDay (zone : Zone) (t : Int) : Int := (t + zone.ofInstant t) / msPerDay

/-- The instant `currentDate` after `currentDate.setHours(0, 0, 0, 0)`: the
local time value of `t` is cut down to the start of its day and read back as
an instant under the rules of the zone. -/
def setHoursZero (zone : Zone) (t : Int) : Int :=
  localDay zone t * msPerDay - zone.ofLocal (localDay zone t * msPerDay)

/-- The value of a decimal digit. -/
def digit? (c : Char) : Option Int :=
  if 48 ≤ c.toNat ∧ c.toNat ≤ 57 then some (Int.ofNat (c.toNat - 48)) else none

/-- The number written by a list of decimal digits after the digits read so
far. -/
def digits? : Int → List Char → Option Int
  | acc, [] => some acc
  | acc, c :: rest =>
    match digit? c with
    | none => none
    | some d => digits? (acc * 10 + d) rest

/-- Leap years of the Gregorian calendar. -/
def isLeapYear (y : Int) : Bool :=
  (y % 4 == 0 && y % 100 != 0) || y % 400 == 0

/-- The number of days of month `m` of year `y`. -/
def daysInMonth (y m : Int) : Int :=
  if m = 2 then (if isLeapYear y then 29 else 28)
  else if m = 4 ∨ m = 6 ∨ m = 9 ∨ m = 11 then 30
  else 31

/-- The day number (days since 1970-01-01) of a date of the Gregorian
calendar. -/
def daysFromCivil (y m d : Int) : Int :=
  let y1 := if m ≤ 2 then y - 1 else y
  let era := y1 / 400
  let yoe := y1 - era * 400
  let mp := (m + 9) % 12
  let doy := (153 * mp + 2) / 5 + d - 1
  let doe := yoe * 365 + yoe / 4 - yoe / 100 + doy
  era * 146097 + doe - 719468

/-- The day number a string of the date-only form `YYYY-MM-DD` denotes, when it
names a day of the calendar. -/
def isoDateOnly (s : String) : Option Int :=
  match s.toList with
  | [y1, y2, y3, y4, '-', m1, m2, '-', d1, d2] =>
    match digits? 0 [y1, y2, y3, y4], digits? 0 [m1, m2], digits? 0 [d1, d2] with
    | some y, some m, some d =>
      if 1 ≤ m ∧ m ≤ 12 ∧ 1 ≤ d ∧ d ≤ daysInMonth y m then some (daysFromCivil y m d)
      else none
    | _, _, _ => none
  | _ => none

/-- The time value of `new Date(startDate)`, `none` for an invalid date.  A
string of the date-only form is read, as ECMAScript prescribes, as midnight UTC
of that day; what the constructor makes of any other string is left to the
platform and is the parameter `otherDate`. -/
def dateConstructor (otherDate : String → Option Int) (s : String) : Option Int :=
  match isoDateOnly s with
  | some day => some (day * msPerDay)
  | none => otherDate s

/-- The comparison `selectedDate < currentDate` of two `Date`s; `none` is an
invalid date, whose time value is `NaN`, and every comparison with it is
false. -/
def dateBefore : Option Int → Int → Bool
  | none, _ => false
  | some t, m => decide (t < m)

/-- The responses of the creation handler, one per `res.json` call. -/
inductive CreateResponse where
  | missingFields
  | invalidPaymentMethod
  | userNotFound
  | courseNotFound
  | pastDate
  | created (applicationId : Nat)
  | serverError
  deriving DecidableEq, Repr

/-- The body's `success` flag. -/
def CreateResponse.success : CreateResponse → Bool
  | .created _ => true
  | _ => false

/-- The rows of `SELECT user_id FROM users WHERE user_id = ?`. -/
def usersById (db : Store) (userId : Nat) : List User :=
  db.users.filter (fun u => u.user_id == userId)

/-- The rows of
`SELECT course_id, name FROM courses WHERE course_id = ? AND is_active = TRUE`. -/
def activeCourses (db : Store) (courseId : Nat) : List Course :=
  db.courses.filter (fun c => c.course_id == courseId && c.is_active)

/-- The `INSERT INTO applications`, with status `new`; the new row takes the
next auto-increment key. -/
def insertApplication (now : Int) (userId courseId : Nat) (startDate : String)
    (pm : PaymentMethod) (db : Store) : Store :=
  { db with
    applications := db.applications ++
      [{ application_id := db.nextApplicationId, user_id := userId, course_id := courseId,
         desired_start_date := startDate, payment_method := pm, status := Status.new,
         updated_at := now }]
    nextApplicationId := db.nextApplicationId + 1 }

/-- The comment of the creation entry. -/
def createdComment : String := "Заявка создана"

/-- The handler of `POST /applications` (`create` in the specification).
`otherDate` is what the `Date` constructor makes of strings that are not of the
date-only form, `zone` the time zone of the server's clock and `now` the
instant of `new Date()`.  The two `INSERT`s go through the pool, outside any
transaction. -/
def postApplications (fails : DbCall → Bool) (otherDate : String → Option Int)
    (zone : Zone) (now : Int) (db : Store) (userId courseId : Nat)
    (startDate paymentMethod : String) : Outcome CreateResponse :=
  if userId = 0 ∨ courseId = 0 ∨ startDate = "" ∨ paymentMethod = "" then
    ⟨.missingFields, db, []⟩
  else
    match PaymentMethod.ofString? paymentMethod with
    | none => ⟨.invalidPaymentMethod, db, []⟩
    | some pm =>
      if fails .selectUser then ⟨.serverError, db, [.selectUser]⟩
      else if (usersById db userId).length = 0 then ⟨.userNotFound, db, [.selectUser]⟩
      else if fails .selectCourse then ⟨.serverError, db, [.selectUser, .selectCourse]⟩
      else if (activeCourses db courseId).length = 0 then
        ⟨.courseNotFound, db, [.selectUser, .selectCourse]⟩
      else if dateBefore (dateConstructor otherDate startDate) (setHoursZero zone now) then
        ⟨.pastDate, db, [.selectUser, .selectCourse]⟩
      else if fails .insertApplication then
        ⟨.serverError, db, [.selectUser, .selectCourse, .insertApplication]⟩
      else
        let insertId := db.nextApplicationId
        let db1 := insertApplication now userId courseId startDate pm db
        if fails .insertCreationHistory then
          ⟨.serverError, db1,
            [.selectUser, .selectCourse, .insertApplication, .insertCreationHistory]⟩
        else
          ⟨.created insertId,
            insertStatusHistory
              { application_id := insertId, old_status := none, new_status := Status.new,
                changed_by := some userId, change_comment := createdComment } db1,
            [.selectUser, .selectCourse, .insertApplication, .insertCreationHistory]⟩

/-! ## `POST /reviews` -/

/-- The responses of the review handler, one per `res.json` call. -/
inductive ReviewResponse where
  | missingFields
  | ratingOutOfRange
  | applicationNotFound
  | notCompleted
  | alreadyReviewed
  | created (reviewId : Nat)
  | serverError
  deriving DecidableEq, Repr

/-- The rows of
`SELECT ... FROM applications a WHERE a.application_id = ? AND a.user_id = ?`. -/
def ownedApplications (db : Store) (applicationId userId : Nat) : List Application :=
  db.applications.filter (fun a => a.application_id == applicationId && a.user_id == userId)

/-- The rows of
`SELECT review_id FROM reviews WHERE application_id = ? AND user_id = ?`. -/
def existingReviews (db : Store) (applicationId userId : Nat) : List Review :=
  db.reviews.filter (fun r => r.application_id == applicationId && r.user_id == userId)

/-- The `INSERT INTO reviews`; the new row takes the next auto-increment key. -/
def insertReview (userId applicationId : Nat) (rating : ℚ) (db : Store) : Store :=
  { db with
    reviews := db.reviews ++
      [{ review_id := db.nextReviewId, user_id := userId,
         application_id := applicationId, rating := rating }]
    nextReviewId := db.nextReviewId + 1 }

/-- The handler of `POST /reviews` (`submitReview` in the specification).
`rating = none` is an absent field. -/
def postReviews (fails : DbCall → Bool) (db : Store) (userId applicationId : Nat)
    (rating : Option ℚ) : Outcome ReviewResponse :=
  match rating with
  | none => ⟨.missingFields, db, []⟩
  | some r =>
    if userId = 0 ∨ applicationId = 0 ∨ r = 0 then ⟨.missingFields, db, []⟩
    else if r < 1 ∨ r > 5 then ⟨.ratingOutOfRange, db, []⟩
    else if fails .selectApplication then ⟨.serverError, db, [.selectApplication]⟩
    else
      match (ownedApplications db applicationId userId).head? with
      | none => ⟨.applicationNotFound, db, [.selectApplication]⟩
      | some application =>
        if application.status ≠ Status.completed then
          ⟨.notCompleted, db, [.selectApplication]⟩
        else if fails .selectReviews then
          ⟨.serverError, db, [.selectApplication, .selectReviews]⟩
        else if (existingReviews db applicationId userId).length > 0 then
          ⟨.alreadyReviewed, db, [.selectApplication, .selectReviews]⟩
        else if fails .insertReview then
          ⟨.serverError, db, [.selectApplication, .selectReviews, .insertReview]⟩
        else
          ⟨.created db.nextReviewId, insertReview userId applicationId r db,
            [.selectApplication, .selectReviews, .insertReview]⟩

/-! ## Runs of the workflow -/

/-- One request to the workflow, together with the behaviour of the
environment while it is served. -/
inductive Request where
  | create (fails : DbCall → Bool) (otherDate : String → Option Int) (zone : Zone)
      (now : Int) (userId courseId : Nat) (startDate paymentMethod : String)
  | transition (fails : DbCall → Bool) (now : Int) (applicationId : Nat)
      (newStatus : Option String) (adminId : Option Nat)
  | review (fails : DbCall → Bool) (userId applicationId : Nat) (rating : Option ℚ)

/-- The committed store after serving a request. -/
def Request.apply (db : Store) : Request → Store
  | .create fails otherDate zone now userId courseId startDate paymentMethod =>
    (postApplications fails otherDate zone now db userId courseId startDate paymentMethod).store
  | .transition fails now applicationId newStatus adminId =>
    (putAdminApplicationsStatus fails now db applicationId newStatus adminId).store
  | .review fails userId applicationId rating =>
    (postReviews fails db userId applicationId rating).store

/-- The store after serving a list of requests in order. -/
def run (db : Store) (reqs : List Request) : Store :=
  reqs.foldl Request.apply db

/-- The store before any application exists: the registered users, the
catalogue, and empty `applications`, `application_status_history` and
`reviews` tables whose counters start at 1. -/
def Store.initial (users : List User) (courses : List Course) : Store :=
  { users := users, courses := courses, applications := [], nextApplicationId := 1,
    history := [], reviews := [], nextReviewId := 1 }

/-- The history rows of one application, in insertion order. -/
def historyOf (db : Store) (applicationId : Nat) : List StatusHistoryEntry :=
  db.history.filter (fun e => e.application_id == applicationId)

/-- The review rows of one application. -/
def reviewsOf (db : Store) (applicationId : Nat) : List Review :=
  db.reviews.filter (fun r => r.application_id == applicationId)

/-- The keys of the store are sound: application ids are positive, distinct and
below the counter, and every application has a positive owner id. -/
structure Store.WF (db : Store) : Prop where
  ids_pos : ∀ a ∈ db.applications, 0 < a.application_id
  ids_lt : ∀ a ∈ db.applications, a.application_id < db.nextApplicationId
  ids_nodup : (db.applications.map (fun a => a.application_id)).Nodup
  owner_pos : ∀ a ∈ db.applications, 0 < a.user_id
  next_pos : 0 < db.nextApplicationId

/-- The invariant behind "at most one review per application": the keys are
sound, every review row was written by the owner of a stored application, and
no two review rows name the same application. -/
structure Store.ReviewInv (db : Store) : Prop where
  wf : db.WF
  owned : ∀ r ∈ db.reviews, ∃ a ∈ db.applications,
    a.application_id = r.application_id ∧ a.user_id = r.user_id
  unique : (db.reviews.map (fun r => r.application_id)).Nodup

/-- The response is the one of a status change that was committed. -/
def StatusResponse.changed : StatusResponse → Bool
  | .updated _ _ _ => true
  | _ => false

/-- The request is a status request for the application `i` that, served on
`db`, changes its status. -/
def Request.changes (i : Nat) (db : Store) : Request → Bool
  | .transition fails now applicationId newStatus adminId =>
    applicationId == i &&
      (putAdminApplicationsStatus fails now db applicationId newStatus adminId).response.changed
  | _ => false

/-- The number of requests of a run from `db` that change the status of the
application `i`. -/
def changeCount (i : Nat) : Store → List Request → Nat
  | _, [] => 0
  | db, req :: rest =>
    (if req.changes i db then 1 else 0) + changeCount i (req.apply db) rest

/-- The request is not a creation whose insert of the creation entry fails. -/
def Request.pairsCreation : Request → Bool
  | .create fails _ _ _ _ _ _ _ => !fails DbCall.insertCreationHistory
  | _ => true

/-- The invariant behind the history count, for a counter `n` of the status
changes so far: the keys are sound, history rows name allocated keys only, the
counter of a key without application is 0, and the history of every application
is one row with a null old status followed by `n` rows with a non-null one. -/
structure Store.HistoryInv (db : Store) (n : Nat → Nat) : Prop where
  wf : db.WF
  allocated : ∀ e ∈ db.history, e.application_id < db.nextApplicationId
  unused : ∀ i, (∀ a ∈ db.applications, a.application_id ≠ i) → n i = 0
  counted : ∀ a ∈ db.applications, ∃ first rest,
    historyOf db a.application_id = first :: rest ∧ first.old_status = none ∧
    (∀ e ∈ rest, e.old_status ≠ none) ∧ rest.length = n a.application_id

/-- The `data` object of the response body, when the body has one: the
application id, the old status and the new status. -/
def StatusResponse.data? : StatusResponse → Option (Nat × Status × Status)
  | .updated applicationId oldStatus newStatus => some (applicationId, oldStatus, newStatus)
  | _ => none

/-- Two consecutive history rows of an application are linked: the later one
starts from the status the earlier one ended in, and it changes the status. -/
def Linked (e1 e2 : StatusHistoryEntry) : Prop :=
  e2.old_status = some e1.new_status ∧ e2.old_status ≠ some e2.new_status

/-- The history rows `l` of an application, in insertion order, form an audit
trail that ends in `current`: the first row goes from null to `new`, every two
consecutive rows are linked, and the last row ends in `current`. -/
structure AuditTrail (l : List StatusHistoryEntry) (current : Status) : Prop where
  first : ∃ e rest, l = e :: rest ∧ e.old_status = none ∧ e.new_status = Status.new
  linked : List.Chain' Linked l
  last : l.getLast?.map (fun e => e.new_status) = some current

/-- The invariant behind the audit trail: the keys are sound, history rows name
allocated keys only, and the history of every application is an audit trail
ending in its current status. -/
structure Store.ChainInv (db : Store) : Prop where
  wf : db.WF
  allocated : ∀ e ∈ db.history, e.application_id < db.nextApplicationId
  trails : ∀ a ∈ db.applications, AuditTrail (historyOf db a.application_id) a.status

/-- A zone used to exercise `setHoursZero` on a day the offset changes: UTC
until 01:00 UTC of 2030-03-31, one hour ahead of UTC from then on. -/
def demoZone : Zone :=
  { ofInstant := fun t => if t < 1901149200000 then 0 else 3600000
    ofLocal := fun t => if t < 1901149200000 then 0 else 3600000 }

/-- A small store used to exercise the statements: user 3 owns the completed
application 9 and the application 42 in progress, user 7 is an ordinary user
and user 8 an administrator. -/
def demoStore : Store :=
  { users := [⟨3, Role.user⟩, ⟨7, Role.user⟩, ⟨8, Role.admin⟩]
    courses := [⟨1, true⟩, ⟨2, false⟩]
    applications :=
      [⟨9, 3, 1, "2030-01-15", PaymentMethod.cash, Status.completed, 5⟩,
       ⟨42, 3, 1, "2030-02-01", PaymentMethod.phone_transfer, Status.in_progress, 6⟩]
    nextApplicationId := 43
    history :=
      [⟨9, none, Status.new, some 3, createdComment⟩,
       ⟨9, some Status.new, Status.completed, none, systemComment⟩,
       ⟨42, none, Status.new, some 3, createdComment⟩,
       ⟨42, some Status.new, Status.in_progress, some 8, adminComment 8⟩]
    reviews := []
    nextReviewId := 1 }

/-! ## Lemmas on the queries -/

theorem demoStore_wf : demoStore.WF :=
  ⟨by decide, by decide, by decide, by decide, by decide⟩


theorem filter_key_eq_singleton {α : Type} (key : α → Nat) :
    ∀ (l : List α) (a : α), (l.map key).Nodup → a ∈ l →
      l.filter (fun x => key x == key a) = [a] := by
  intro l
  induction l with
  | nil => intro a _ h; simp at h
  | cons x xs ih =>
    intro a hnd ha
    rw [List.map_cons, List.nodup_cons] at hnd
    rcases List.mem_cons.mp ha with rfl | hmem
    · have hnone : xs.filter (fun y => key y == key a) = [] := by
        rw [List.filter_eq_nil_iff]
        intro y hy hk
        exact hnd.1 (List.mem_map.mpr ⟨y, hy, by simpa using hk⟩)
      simp [List.filter_cons, hnone]
    · have hx : key x ≠ key a := by
        intro h
        exact hnd.1 (List.mem_map.mpr ⟨a, hmem, h.symm⟩)
      simp [List.filter_cons, hx, ih a hnd.2 hmem]

theorem currentApps_of_mem {db : Store} (hwf : db.WF) {a : Application}
    (ha : a ∈ db.applications) : currentApps db a.application_id = [a] :=
  filter_key_eq_singleton (fun x : Application => x.application_id) db.applications a
    hwf.ids_nodup ha

theorem setStatus_id (now : Int) (st : Status) (i : Nat) (a : Application) :
    (setStatus now st i a).application_id = a.application_id := by
  unfold setStatus
  split <;> rfl

theorem setStatus_user (now : Int) (st : Status) (i : Nat) (a : Application) :
    (setStatus now st i a).user_id = a.user_id := by
  unfold setStatus
  split <;> rfl

theorem update_applications (now : Int) (st : Status) (i : Nat) (db : Store) :
    (updateApplicationStatus now st i db).applications =
      db.applications.map (setStatus now st i) := rfl

theorem filter_id_map (l : List Application) (f : Application → Application)
    (hf : ∀ a, (f a).application_id = a.application_id) (j : Nat) :
    (l.map f).filter (fun a => a.application_id == j) =
      (l.filter (fun a => a.application_id == j)).map f := by
  rw [List.filter_map]
  congr 1
  apply List.filter_congr
  intro x _
  simp [hf]

theorem currentApps_update_same (now : Int) (st : Status) (i : Nat) (db : Store) :
    currentApps (updateApplicationStatus now st i db) i =
      (currentApps db i).map (fun a => { a with status := st, updated_at := now }) := by
  unfold currentApps
  rw [update_applications, filter_id_map _ _ (setStatus_id now st i)]
  apply List.map_congr_left
  intro a ha
  have h := (List.mem_filter.mp ha).2
  simp [setStatus, h]

theorem currentApps_update_other (now : Int) (st : Status) (i j : Nat) (db : Store)
    (hij : j ≠ i) :
    currentApps (updateApplicationStatus now st i db) j = currentApps db j := by
  unfold currentApps
  rw [update_applications, filter_id_map _ _ (setStatus_id now st i)]
  conv_rhs => rw [← List.map_id (List.filter _ db.applications)]
  apply List.map_congr_left
  intro a ha
  have h := (List.mem_filter.mp ha).2
  have h2 : a.application_id = j := by simpa using h
  have h3 : ¬ a.application_id = i := by rw [h2]; exact hij
  simp [setStatus, h3]

theorem ofString?_ne_empty {str : String} {st : Status}
    (h : Status.ofString? str = some st) : str ≠ "" := by
  rintro rfl
  simp [Status.ofString?] at h

theorem historyOf_insert_other (e : StatusHistoryEntry) (db : Store) (j : Nat)
    (h : e.application_id ≠ j) :
    historyOf (insertStatusHistory e db) j = historyOf db j := by
  simp [historyOf, insertStatusHistory, List.filter_append, h]

theorem historyOf_insert_same (e : StatusHistoryEntry) (db : Store) :
    historyOf (insertStatusHistory e db) e.application_id =
      historyOf db e.application_id ++ [e] := by
  simp [historyOf, insertStatusHistory, List.filter_append]

theorem currentApps_length_pos {db : Store} {i : Nat} {row : Application}
    (h : (currentApps db i).head? = some row) : (currentApps db i).length ≠ 0 := by
  intro h0
  rw [List.length_eq_zero] at h0
  rw [h0] at h
  simp at h

/-- The decision table of the status handler: a property holds of every outcome
as soon as it holds of each of the handler's exits, under the conditions that
lead there.  The exit `h_abort` is the `catch` block entered with a connection:
the call `c` threw, or `c` is the `UPDATE` and it found no row. -/
theorem transition_table {P : Outcome StatusResponse → Prop} (fails : DbCall → Bool)
    (now : Int) (db : Store) (applicationId : Nat) (newStatus : Option String)
    (adminId : Option Nat)
    (h_required : (newStatus = none ∨ newStatus = some "") →
      P ⟨StatusResponse.statusRequired, db, []⟩)
    (h_invalid : ∀ str, newStatus = some str → str ≠ "" → Status.ofString? str = none →
      P ⟨StatusResponse.invalidStatus, db, []⟩)
    (h_conn : ∀ str st, newStatus = some str → Status.ofString? str = some st →
      fails DbCall.getConnection = true →
      P ⟨StatusResponse.serverError, db, [DbCall.getConnection]⟩)
    (h_abort : ∀ str st pre c, newStatus = some str → Status.ofString? str = some st →
      fails DbCall.getConnection = false → (∀ x ∈ pre, fails x = false) →
      (fails c = true ∨ (c = DbCall.updateStatus ∧ fails DbCall.updateFindsNoRow = true)) →
      c ∈ [DbCall.beginTransaction, DbCall.selectStatus, DbCall.rollback,
            DbCall.updateStatus, DbCall.selectAdmin, DbCall.insertHistory, DbCall.commit] →
      (∀ x ∈ pre, x ∈ [DbCall.beginTransaction, DbCall.selectStatus, DbCall.updateStatus,
            DbCall.selectAdmin, DbCall.insertHistory]) →
      (c = DbCall.beginTransaction ∨ c = DbCall.selectStatus ∨ c = DbCall.rollback ∨
        ∃ row, (currentApps db applicationId).head? = some row ∧ row.status ≠ st) →
      P (catchBlock fails db (DbCall.getConnection :: (pre ++ [c]))))
    (h_notFound : ∀ str st, newStatus = some str → Status.ofString? str = some st →
      fails DbCall.getConnection = false → fails DbCall.beginTransaction = false →
      fails DbCall.selectStatus = false → fails DbCall.rollback = false →
      (currentApps db applicationId).head? = none →
      P ⟨StatusResponse.notFound, db,
          [DbCall.getConnection, DbCall.beginTransaction, DbCall.selectStatus,
            DbCall.rollback, DbCall.release]⟩)
    (h_already : ∀ str st row, newStatus = some str → Status.ofString? str = some st →
      fails DbCall.getConnection = false → fails DbCall.beginTransaction = false →
      fails DbCall.selectStatus = false → fails DbCall.rollback = false →
      (currentApps db applicationId).head? = some row → row.status = st →
      P ⟨StatusResponse.alreadySet, db,
          [DbCall.getConnection, DbCall.beginTransaction, DbCall.selectStatus,
            DbCall.rollback, DbCall.release]⟩)
    (h_updated : ∀ str st row pre, newStatus = some str → Status.ofString? str = some st →
      (currentApps db applicationId).head? = some row → row.status ≠ st →
      fails DbCall.getConnection = false → fails DbCall.beginTransaction = false →
      fails DbCall.selectStatus = false → fails DbCall.updateStatus = false →
      fails DbCall.updateFindsNoRow = false →
      fails DbCall.insertHistory = false → fails DbCall.commit = false →
      (pre = [] ∨ (pre = [DbCall.selectAdmin] ∧ fails DbCall.selectAdmin = false)) →
      P ⟨StatusResponse.updated applicationId row.status st,
         insertStatusHistory
            { application_id := applicationId, old_status := some row.status,
              new_status := st, changed_by := (changedBy db adminId).1,
              change_comment := (changedBy db adminId).2 }
            (updateApplicationStatus now st applicationId db),
         [DbCall.getConnection, DbCall.beginTransaction, DbCall.selectStatus,
            DbCall.updateStatus] ++ pre ++
            [DbCall.insertHistory, DbCall.commit, DbCall.release]⟩) :
    P (putAdminApplicationsStatus fails now db applicationId newStatus adminId) := by
  unfold putAdminApplicationsStatus recordAndCommit
  cases newStatus with
  | none => exact h_required (Or.inl rfl)
  | some str =>
    dsimp only
    by_cases h0 : str = ""
    · rw [if_pos h0]; exact h_required (Or.inr (by rw [h0]))
    rw [if_neg h0]
    cases hs : Status.ofString? str with
    | none => exact h_invalid str rfl h0 hs
    | some newSt =>
      dsimp only
      by_cases h1 : fails DbCall.getConnection = true
      · rw [if_pos h1]; exact h_conn str newSt rfl hs h1
      rw [if_neg h1]
      have g1 : fails DbCall.getConnection = false := by simpa using h1
      by_cases h2 : fails DbCall.beginTransaction = true
      · rw [if_pos h2]
        exact h_abort str newSt [] _ rfl hs g1 (by simp) (Or.inl h2) (by simp) (by simp)
          (Or.inl rfl)
      rw [if_neg h2]
      have g2 : fails DbCall.beginTransaction = false := by simpa using h2
      by_cases h3 : fails DbCall.selectStatus = true
      · rw [if_pos h3]
        exact h_abort str newSt [DbCall.beginTransaction] _ rfl hs g1 (by simp [g2])
          (Or.inl h3) (by simp) (by simp) (Or.inr (Or.inl rfl))
      rw [if_neg h3]
      have g3 : fails DbCall.selectStatus = false := by simpa using h3
      cases hrow : (currentApps db applicationId).head? with
      | none =>
        dsimp only
        by_cases hr : fails DbCall.rollback = true
        · rw [if_pos hr]
          exact h_abort str newSt [DbCall.beginTransaction, DbCall.selectStatus] _ rfl hs g1
            (by simp [g2, g3]) (Or.inl hr) (by simp) (by simp) (Or.inr (Or.inr (Or.inl rfl)))
        rw [if_neg hr]
        exact h_notFound str newSt rfl hs g1 g2 g3 (by simpa using hr) hrow
      | some row =>
        dsimp only
        by_cases h4 : row.status = newSt
        · rw [if_pos h4]
          by_cases hr : fails DbCall.rollback = true
          · rw [if_pos hr]
            exact h_abort str newSt [DbCall.beginTransaction, DbCall.selectStatus] _ rfl hs
              g1 (by simp [g2, g3]) (Or.inl hr) (by simp) (by simp)
              (Or.inr (Or.inr (Or.inl rfl)))
          rw [if_neg hr]
          exact h_already str newSt row rfl hs g1 g2 g3 (by simpa using hr) hrow h4
        rw [if_neg h4]
        have hwhere : ∀ c : DbCall, c = DbCall.beginTransaction ∨ c = DbCall.selectStatus ∨
            c = DbCall.rollback ∨
            ∃ row, (currentApps db applicationId).head? = some row ∧ row.status ≠ newSt :=
          fun _ => Or.inr (Or.inr (Or.inr ⟨row, hrow, h4⟩))
        by_cases h5 : fails DbCall.updateStatus = true
        · rw [if_pos h5]
          exact h_abort str newSt [DbCall.beginTransaction, DbCall.selectStatus] _ rfl hs g1
            (by simp [g2, g3]) (Or.inl h5) (by simp) (by simp) (hwhere _)
        rw [if_neg h5]
        have g5 : fails DbCall.updateStatus = false := by simpa using h5
        by_cases h6 : fails DbCall.updateFindsNoRow = true
        · have haff : (if fails DbCall.updateFindsNoRow = true then 0
              else (currentApps db applicationId).length) = 0 := by rw [if_pos h6]
          rw [if_pos haff]
          exact h_abort str newSt [DbCall.beginTransaction, DbCall.selectStatus] _ rfl hs g1
            (by simp [g2, g3]) (Or.inr ⟨rfl, h6⟩) (by simp) (by simp) (hwhere _)
        have haff : ¬ (if fails DbCall.updateFindsNoRow = true then 0
            else (currentApps db applicationId).length) = 0 := by
          rw [if_neg h6]
          exact currentApps_length_pos hrow
        rw [if_neg haff]
        have g6 : fails DbCall.updateFindsNoRow = false := by simpa using h6
        have tail : ∀ pre who, who = changedBy db adminId →
            (pre = [] ∨ (pre = [DbCall.selectAdmin] ∧ fails DbCall.selectAdmin = false)) →
            P (if fails DbCall.insertHistory = true then
                catchBlock fails db
                  (([DbCall.getConnection, DbCall.beginTransaction, DbCall.selectStatus,
                    DbCall.updateStatus] ++ pre) ++ [DbCall.insertHistory])
              else
                if fails DbCall.commit = true then
                  catchBlock fails db
                    (([DbCall.getConnection, DbCall.beginTransaction, DbCall.selectStatus,
                      DbCall.updateStatus] ++ pre) ++ [DbCall.insertHistory, DbCall.commit])
                else
                  ⟨StatusResponse.updated applicationId row.status newSt,
                    insertStatusHistory
                      { application_id := applicationId, old_status := some row.status,
                        new_status := newSt, changed_by := who.1,
                        change_comment := who.2 }
                      (updateApplicationStatus now newSt applicationId db),
                    ([DbCall.getConnection, DbCall.beginTransaction, DbCall.selectStatus,
                      DbCall.updateStatus] ++ pre) ++
                      [DbCall.insertHistory, DbCall.commit, DbCall.release]⟩) := by
          intro pre who hwho hpre
          have hprefix : ∀ x ∈ [DbCall.beginTransaction, DbCall.selectStatus,
              DbCall.updateStatus] ++ pre, fails x = false := by
            rcases hpre with rfl | ⟨rfl, g⟩
            · simp [g2, g3, g5]
            · simp [g2, g3, g5, g]
          have hkind : ∀ x ∈ [DbCall.beginTransaction, DbCall.selectStatus,
              DbCall.updateStatus] ++ pre,
              x ∈ [DbCall.beginTransaction, DbCall.selectStatus, DbCall.updateStatus,
                DbCall.selectAdmin, DbCall.insertHistory] := by
            rcases hpre with rfl | ⟨rfl, _⟩ <;> simp
          by_cases h7 : fails DbCall.insertHistory = true
          · rw [if_pos h7]
            have := h_abort str newSt ([DbCall.beginTransaction, DbCall.selectStatus,
              DbCall.updateStatus] ++ pre) _ rfl hs g1 hprefix (Or.inl h7) (by simp) hkind
              (hwhere _)
            simpa using this
          rw [if_neg h7]
          have g7 : fails DbCall.insertHistory = false := by simpa using h7
          by_cases h8 : fails DbCall.commit = true
          · rw [if_pos h8]
            have := h_abort str newSt ([DbCall.beginTransaction, DbCall.selectStatus,
              DbCall.updateStatus] ++ pre ++ [DbCall.insertHistory]) _ rfl hs g1
              (by
                intro x hx
                rcases List.mem_append.mp hx with hx | hx
                · exact hprefix x hx
                · simp at hx; rw [hx]; exact g7)
              (Or.inl h8) (by simp)
              (by
                intro x hx
                rcases List.mem_append.mp hx with hx | hx
                · exact hkind x hx
                · simp at hx; rw [hx]; simp)
              (hwhere _)
            simpa using this
          rw [if_neg h8, hwho]
          have g8 : fails DbCall.commit = false := by simpa using h8
          exact h_updated str newSt row pre rfl hs hrow h4 g1 g2 g3 g5 g6 g7 g8 hpre
        cases adminId with
        | none => exact tail [] (none, systemComment) rfl (Or.inl rfl)
        | some aid =>
          dsimp only
          by_cases h9 : aid = 0
          · rw [if_pos h9]
            exact tail [] (none, systemComment) (by simp [changedBy, h9]) (Or.inl rfl)
          rw [if_neg h9]
          by_cases h10 : fails DbCall.selectAdmin = true
          · rw [if_pos h10]
            exact h_abort str newSt [DbCall.beginTransaction, DbCall.selectStatus,
              DbCall.updateStatus] _ rfl hs g1 (by simp [g2, g3, g5]) (Or.inl h10) (by simp)
              (by simp) (hwhere _)
          rw [if_neg h10]
          have g10 : fails DbCall.selectAdmin = false := by simpa using h10
          exact tail [DbCall.selectAdmin] (attribution aid (adminUsers db aid))
            (by simp [changedBy, h9]) (Or.inr ⟨rfl, g10⟩)

/-- Case analysis on an outcome of the status handler: either the committed
store is untouched and the response is not the one with `data`, or the request
named a status of the enumeration different from the one read, the response
carries the old and the new status, and the committed store is the old one
after the `UPDATE` and one history `INSERT`. -/
theorem transition_elim {P : Outcome StatusResponse → Prop} (fails : DbCall → Bool)
    (now : Int) (db : Store) (applicationId : Nat) (newStatus : Option String)
    (adminId : Option Nat)
    (hkeep : ∀ r calls, (∀ i o n, r ≠ StatusResponse.updated i o n) → P ⟨r, db, calls⟩)
    (hupd : ∀ str newSt row calls, newStatus = some str → Status.ofString? str = some newSt →
      (currentApps db applicationId).head? = some row → row.status ≠ newSt →
      P ⟨StatusResponse.updated applicationId row.status newSt,
         insertStatusHistory
            { application_id := applicationId, old_status := some row.status,
              new_status := newSt, changed_by := (changedBy db adminId).1,
              change_comment := (changedBy db adminId).2 }
            (updateApplicationStatus now newSt applicationId db), calls⟩) :
    P (putAdminApplicationsStatus fails now db applicationId newStatus adminId) := by
  refine transition_table fails now db applicationId newStatus adminId ?_ ?_ ?_ ?_ ?_ ?_ ?_
  · intro _
    exact hkeep _ _ (by simp)
  · intro _ _ _ _
    exact hkeep _ _ (by simp)
  · intro _ _ _ _ _
    exact hkeep _ _ (by simp)
  · intro _ _ _ _ _ _ _ _ _ _ _ _
    unfold catchBlock
    split
    · exact hkeep _ _ (by simp)
    · exact hkeep _ _ (by simp)
  · intro _ _ _ _ _ _ _ _ _
    exact hkeep _ _ (by simp)
  · intro _ _ _ _ _ _ _ _ _ _ _
    exact hkeep _ _ (by simp)
  · intro str st row pre hsome hst hrow hne _ _ _ _ _ _ _ _
    exact hupd str st row _ hsome hst hrow hne

theorem catchBlock_store (fails : DbCall → Bool) (db : Store) (pre : List DbCall) :
    (catchBlock fails db pre).store = db := by
  unfold catchBlock
  split <;> rfl

theorem catchBlock_calls (fails : DbCall → Bool) (db : Store) (pre : List DbCall) :
    (catchBlock fails db pre).calls = pre ++ [DbCall.catchRollback, DbCall.release] := by
  unfold catchBlock
  split <;> rfl

theorem catchBlock_response (fails : DbCall → Bool) (db : Store) (pre : List DbCall) :
    (fails DbCall.catchRollback = false →
      (catchBlock fails db pre).response = StatusResponse.serverError) ∧
    (fails DbCall.catchRollback = true →
      (catchBlock fails db pre).response = StatusResponse.unanswered) := by
  unfold catchBlock
  constructor
  · intro h
    simp [h]
  · intro h
    simp [h]

theorem catchBlock_not_success (fails : DbCall → Bool) (db : Store) (pre : List DbCall) :
    (catchBlock fails db pre).response.success = false ∧
    (catchBlock fails db pre).response.data? = none ∧
    ∀ i o n, (catchBlock fails db pre).response ≠ StatusResponse.updated i o n := by
  unfold catchBlock
  split <;> simp [StatusResponse.success, StatusResponse.data?]

/-! ## Properties of the status handler -/

/-- C1. A real status change: on a sound store, for a stored application `a` and
a requested status of the enumeration different from the current one, when no
persistence call fails the handler answers with success, the row of `a` carries
the new status, exactly one history row is appended, it records `a`, the old
and the new status, and the rows and the history of every other application are
as before. -/
theorem transition_applies_change (now : Int) (db : Store) (a : Application)
    (str : String) (newSt : Status) (adminId : Option Nat)
    (hwf : db.WF) (ha : a ∈ db.applications)
    (hs : Status.ofString? str = some newSt) (hne : newSt ≠ a.status) :
    (putAdminApplicationsStatus noFailure now db a.application_id (some str) adminId).response
        = StatusResponse.updated a.application_id a.status newSt ∧
    currentApps
        (putAdminApplicationsStatus noFailure now db a.application_id (some str) adminId).store
        a.application_id = [{ a with status := newSt, updated_at := now }] ∧
    (∃ who comment,
      (putAdminApplicationsStatus noFailure now db a.application_id (some str) adminId).store.history
        = db.history ++ [{ application_id := a.application_id, old_status := some a.status,
                           new_status := newSt, changed_by := who,
                           change_comment := comment }]) ∧
    (∀ j, j ≠ a.application_id →
      currentApps
          (putAdminApplicationsStatus noFailure now db a.application_id (some str) adminId).store j
        = currentApps db j ∧
      historyOf
          (putAdminApplicationsStatus noFailure now db a.application_id (some str) adminId).store j
        = historyOf db j) := by
  have hcur := currentApps_of_mem hwf ha
  have hstr := ofString?_ne_empty hs
  refine @transition_table (fun out =>
      out.response = StatusResponse.updated a.application_id a.status newSt ∧
      currentApps out.store a.application_id = [{ a with status := newSt, updated_at := now }] ∧
      (∃ who comment, out.store.history
        = db.history ++ [{ application_id := a.application_id, old_status := some a.status,
                           new_status := newSt, changed_by := who,
                           change_comment := comment }]) ∧
      (∀ j, j ≠ a.application_id →
        currentApps out.store j = currentApps db j ∧ historyOf out.store j = historyOf db j))
    noFailure now db a.application_id (some str) adminId ?_ ?_ ?_ ?_ ?_ ?_ ?_
  · intro h
    rcases h with h | h
    · cases h
    · exact absurd (Option.some.inj h) hstr
  · intro s hsome _ hnone
    cases hsome
    rw [hs] at hnone
    cases hnone
  · intro _ _ _ _ h
    simp [noFailure] at h
  · intro _ _ _ c _ _ _ _ h
    simp [noFailure] at h
  · intro _ _ _ _ _ _ _ _ h
    rw [hcur] at h
    simp at h
  · intro s st row hsome hst _ _ _ _ hrow hrs
    cases hsome
    rw [hs] at hst
    rw [hcur] at hrow
    simp at hrow hst
    subst hrow
    exact absurd (hst.trans hrs.symm) hne
  · intro s st row pre hsome hst hrow _ _ _ _ _ _ _ _ _
    cases hsome
    rw [hs] at hst
    rw [hcur] at hrow
    simp at hrow hst
    subst hrow
    subst hst
    refine ⟨rfl, ?_, ⟨_, _, rfl⟩, ?_⟩
    · show currentApps (updateApplicationStatus now newSt a.application_id db)
          a.application_id = _
      rw [currentApps_update_same, hcur]
      rfl
    · intro j hj
      constructor
      · show currentApps (updateApplicationStatus now newSt a.application_id db) j = _
        exact currentApps_update_other now newSt a.application_id j db hj
      · rw [historyOf_insert_other _ _ _ (fun h => hj h.symm)]
        rfl

/-- C1, on the demonstration store: moving the completed application 9 back to
`new` is answered with the old and the new status. -/
theorem transition_applies_change_witness :
    (putAdminApplicationsStatus noFailure 100 demoStore 9 (some "new") (some 8)).response
      = StatusResponse.updated 9 Status.completed Status.new :=
  (transition_applies_change 100 demoStore
    ⟨9, 3, 1, "2030-01-15", PaymentMethod.cash, Status.completed, 5⟩ "new" Status.new (some 8)
    demoStore_wf (by decide) (by decide) (by decide)).1

/-- C2. The no-op: on a sound store, asking for the status a stored application
already has leaves the committed store exactly as it was whatever the acting
administrator and whatever fails; when the connection, the transaction start,
the status read and the rollback that closes the no-op do not fail the answer is
the success "already set"; and a second such call leaves the same store, hence
the same history, as the first. -/
theorem transition_noop (fails fails2 : DbCall → Bool) (now now2 : Int) (db : Store)
    (a : Application) (str : String) (adminId adminId2 : Option Nat)
    (hwf : db.WF) (ha : a ∈ db.applications)
    (hs : Status.ofString? str = some a.status) :
    (putAdminApplicationsStatus fails now db a.application_id (some str) adminId).store = db ∧
    (fails DbCall.getConnection = false → fails DbCall.beginTransaction = false →
      fails DbCall.selectStatus = false → fails DbCall.rollback = false →
      (putAdminApplicationsStatus fails now db a.application_id (some str) adminId).response
        = StatusResponse.alreadySet) ∧
    (putAdminApplicationsStatus fails2 now2
        (putAdminApplicationsStatus fails now db a.application_id (some str) adminId).store
        a.application_id (some str) adminId2).store.history
      = (putAdminApplicationsStatus fails now db a.application_id (some str) adminId).store.history := by
  have hcur := currentApps_of_mem hwf ha
  have key : ∀ (f : DbCall → Bool) (t : Int) (adm : Option Nat),
      (putAdminApplicationsStatus f t db a.application_id (some str) adm).store = db ∧
      (f DbCall.getConnection = false → f DbCall.beginTransaction = false →
        f DbCall.selectStatus = false → f DbCall.rollback = false →
        (putAdminApplicationsStatus f t db a.application_id (some str) adm).response
          = StatusResponse.alreadySet) := by
    intro f t adm
    refine @transition_table (fun out => out.store = db ∧
        (f DbCall.getConnection = false → f DbCall.beginTransaction = false →
          f DbCall.selectStatus = false → f DbCall.rollback = false →
          out.response = StatusResponse.alreadySet))
      f t db a.application_id (some str) adm ?_ ?_ ?_ ?_ ?_ ?_ ?_
    · intro h
      rcases h with h | h
      · cases h
      · exact absurd (Option.some.inj h) (ofString?_ne_empty hs)
    · intro s hsome _ hnone
      cases hsome
      rw [hs] at hnone
      cases hnone
    · intro _ _ _ _ h
      exact ⟨rfl, fun h1 => by rw [h1] at h; cases h⟩
    · intro _ st pre c hsome hst _ _ hc _ _ hwhere
      refine ⟨catchBlock_store _ _ _, fun _ h2 h3 h4 => ?_⟩
      cases hsome
      rw [hs] at hst
      cases hst
      exfalso
      rcases hwhere with rfl | rfl | rfl | ⟨row, hrow, hrs⟩
      · rcases hc with hc | ⟨hc, _⟩
        · rw [h2] at hc; cases hc
        · cases hc
      · rcases hc with hc | ⟨hc, _⟩
        · rw [h3] at hc; cases hc
        · cases hc
      · rcases hc with hc | ⟨hc, _⟩
        · rw [h4] at hc; cases hc
        · cases hc
      · rw [hcur] at hrow
        simp at hrow
        subst hrow
        exact hrs rfl
    · intro _ _ _ _ _ _ _ _ h
      rw [hcur] at h
      simp at h
    · intro _ _ _ _ _ _ _ _ _ _ _
      exact ⟨rfl, fun _ _ _ _ => rfl⟩
    · intro s st row pre hsome hst hrow hrs _ _ _ _ _ _ _ _
      cases hsome
      rw [hs] at hst
      rw [hcur] at hrow
      simp at hrow hst
      subst hrow
      exact absurd hst hrs
  refine ⟨(key fails now adminId).1, (key fails now adminId).2, ?_⟩
  rw [(key fails now adminId).1, (key fails2 now2 adminId2).1]

/-- C2, on the demonstration store: asking again for `completed` on the
completed application 9 changes nothing, even when the history insert and the
commit are set to fail. -/
theorem transition_noop_witness :
    (putAdminApplicationsStatus (fun c => c == DbCall.commit || c == DbCall.insertHistory) 100
        demoStore 9 (some "completed") (some 7)).store = demoStore ∧
    (putAdminApplicationsStatus (fun c => c == DbCall.commit || c == DbCall.insertHistory) 100
        demoStore 9 (some "completed") (some 7)).response = StatusResponse.alreadySet :=
  have h := transition_noop (fun c => c == DbCall.commit || c == DbCall.insertHistory)
    noFailure 100 200 demoStore
    ⟨9, 3, 1, "2030-01-15", PaymentMethod.cash, Status.completed, 5⟩ "completed" (some 7) none
    demoStore_wf (by decide) (by decide)
  ⟨h.1, h.2.1 (by decide) (by decide) (by decide) (by decide)⟩

/-- The no-op when its rollback throws: the `catch` block is entered, and on
the demonstration store the answer is then the 500 one, or none at all when the
rollback of the `catch` block throws as well; the store is untouched. -/
theorem transition_noop_rollback_failure :
    (putAdminApplicationsStatus (fun c => c == DbCall.rollback) 100 demoStore 9
        (some "completed") none).response = StatusResponse.serverError ∧
    (putAdminApplicationsStatus (fun c => c == DbCall.rollback || c == DbCall.catchRollback)
        100 demoStore 9 (some "completed") none).response = StatusResponse.unanswered ∧
    (putAdminApplicationsStatus (fun c => c == DbCall.rollback || c == DbCall.catchRollback)
        100 demoStore 9 (some "completed") none).store = demoStore := by
  refine ⟨by decide, by decide, by decide⟩

theorem changedBy_admin (db : Store) (aid : Nat) (h0 : aid ≠ 0)
    (h : ∃ u ∈ db.users, u.user_id = aid ∧ u.role = Role.admin) :
    changedBy db (some aid) = (some aid, adminComment aid) := by
  obtain ⟨u, hu, hid, hrole⟩ := h
  have hmem : u ∈ adminUsers db aid := by
    unfold adminUsers
    rw [List.mem_filter]
    exact ⟨hu, by simp [hid, hrole]⟩
  have hpos : (adminUsers db aid).length > 0 := List.length_pos_of_mem hmem
  simp [changedBy, h0, attribution, hpos]

theorem changedBy_system (db : Store) (adminId : Option Nat)
    (h : adminId = none ∨ adminId = some 0 ∨
      ∀ u ∈ db.users, some u.user_id = adminId → u.role ≠ Role.admin) :
    changedBy db adminId = (none, systemComment) := by
  rcases h with rfl | rfl | h
  · rfl
  · rfl
  · cases adminId with
    | none => rfl
    | some aid =>
      have hnil : adminUsers db aid = [] := by
        unfold adminUsers
        rw [List.filter_eq_nil_iff]
        intro u hu hcond
        simp only [Bool.and_eq_true, beq_iff_eq] at hcond
        exact h u hu (by rw [hcond.1]) hcond.2
      by_cases h0 : aid = 0
      · simp [changedBy, h0]
      · simp [changedBy, h0, attribution, hnil]

/-- C3. Attribution: whenever the handler answers with a status change, one
history row is appended for that change and the applications table is the old
one after the `UPDATE`, whoever acted; the row names the acting administrator,
with the administrator comment, when an id is given, is not 0 and is the key of
a stored user of role `admin`; when the id is absent, is 0, or belongs to no
stored administrator, the row names nobody and carries the system comment. -/
theorem transition_attribution (fails : DbCall → Bool) (now : Int) (db : Store)
    (applicationId : Nat) (newStatus : Option String) (adminId : Option Nat)
    (i : Nat) (o n : Status)
    (h : (putAdminApplicationsStatus fails now db applicationId newStatus adminId).response
      = StatusResponse.updated i o n) :
    ∃ e, (putAdminApplicationsStatus fails now db applicationId newStatus adminId).store.history
        = db.history ++ [e] ∧
      (putAdminApplicationsStatus fails now db applicationId newStatus adminId).store.applications
        = db.applications.map (setStatus now n applicationId) ∧
      i = applicationId ∧ e.application_id = applicationId ∧ e.old_status = some o ∧
      e.new_status = n ∧
      (∀ aid, adminId = some aid → aid ≠ 0 →
        (∃ u ∈ db.users, u.user_id = aid ∧ u.role = Role.admin) →
        e.changed_by = some aid ∧ e.change_comment = adminComment aid) ∧
      ((adminId = none ∨ adminId = some 0 ∨
          ∀ u ∈ db.users, some u.user_id = adminId → u.role ≠ Role.admin) →
        e.changed_by = none ∧ e.change_comment = systemComment) := by
  revert h
  refine @transition_elim (fun out => out.response = StatusResponse.updated i o n →
      ∃ e, out.store.history = db.history ++ [e] ∧
        out.store.applications = db.applications.map (setStatus now n applicationId) ∧
        i = applicationId ∧ e.application_id = applicationId ∧ e.old_status = some o ∧
        e.new_status = n ∧
        (∀ aid, adminId = some aid → aid ≠ 0 →
          (∃ u ∈ db.users, u.user_id = aid ∧ u.role = Role.admin) →
          e.changed_by = some aid ∧ e.change_comment = adminComment aid) ∧
        ((adminId = none ∨ adminId = some 0 ∨
            ∀ u ∈ db.users, some u.user_id = adminId → u.role ≠ Role.admin) →
          e.changed_by = none ∧ e.change_comment = systemComment))
    fails now db applicationId newStatus adminId ?_ ?_
  · intro r calls hr h
    exact absurd h (hr i o n)
  · intro str newSt row calls _ _ _ _ h
    simp only [StatusResponse.updated.injEq] at h
    obtain ⟨rfl, rfl, rfl⟩ := h
    refine ⟨_, rfl, rfl, rfl, rfl, rfl, rfl, ?_, ?_⟩
    · intro aid hsome h0 hu
      subst hsome
      rw [changedBy_admin db aid h0 hu]
      exact ⟨rfl, rfl⟩
    · intro hsys
      rw [changedBy_system db adminId hsys]
      exact ⟨rfl, rfl⟩

/-- C3, on the demonstration store: user 7 has role `user`, and completing the
application 42 in their name succeeds with a row that names nobody. -/
theorem transition_attribution_witness :
    ∃ e, (putAdminApplicationsStatus noFailure 100 demoStore 42 (some "completed")
        (some 7)).store.history = demoStore.history ++ [e] ∧
      e.changed_by = none ∧ e.change_comment = systemComment := by
  obtain ⟨e, h1, _, _, _, _, _, _, hsys⟩ :=
    transition_attribution noFailure 100 demoStore 42 (some "completed") (some 7)
      42 Status.in_progress Status.completed (by decide)
  exact ⟨e, h1, hsys (Or.inr (Or.inr (by decide)))⟩

/-- C4. Atomicity: for every store, every input and every pattern of failures,
an outcome that is not a success leaves the committed store as it was.  A call
of the handler that throws (the status read, the update, the administrator
lookup, the history insert, or any other), and likewise an update that affects
no row, leaves the store untouched and is never answered with a success: the
`catch` block rolls back and then sends the 500 answer, and sends nothing when
its own rollback throws.  A 500 answer always has such a cause and, once a
connection was obtained, is sent after the rollback of the `catch` block went
through. -/
theorem transition_atomic (fails : DbCall → Bool) (now : Int) (db : Store)
    (applicationId : Nat) (newStatus : Option String) (adminId : Option Nat) :
    ((putAdminApplicationsStatus fails now db applicationId newStatus adminId).response.success
        = false →
      (putAdminApplicationsStatus fails now db applicationId newStatus adminId).store = db) ∧
    (∀ c ∈ (putAdminApplicationsStatus fails now db applicationId newStatus adminId).calls,
      c ≠ DbCall.catchRollback → c ≠ DbCall.release →
      (fails c = true ∨ (c = DbCall.updateStatus ∧ fails DbCall.updateFindsNoRow = true)) →
      (putAdminApplicationsStatus fails now db applicationId newStatus adminId).store = db ∧
      (putAdminApplicationsStatus fails now db applicationId newStatus adminId).response.success
        = false ∧
      ((fails DbCall.catchRollback = false ∨ c = DbCall.getConnection) →
        (putAdminApplicationsStatus fails now db applicationId newStatus adminId).response
          = StatusResponse.serverError) ∧
      (fails DbCall.catchRollback = true → c ≠ DbCall.getConnection →
        (putAdminApplicationsStatus fails now db applicationId newStatus adminId).response
          = StatusResponse.unanswered)) ∧
    ((putAdminApplicationsStatus fails now db applicationId newStatus adminId).response
        = StatusResponse.serverError →
      (∃ c ∈ (putAdminApplicationsStatus fails now db applicationId newStatus adminId).calls,
        c ≠ DbCall.catchRollback ∧ c ≠ DbCall.release ∧
        (fails c = true ∨ (c = DbCall.updateStatus ∧ fails DbCall.updateFindsNoRow = true))) ∧
      ((putAdminApplicationsStatus fails now db applicationId newStatus adminId).calls
          = [DbCall.getConnection] ∨
        (fails DbCall.catchRollback = false ∧
          ∃ pre, (putAdminApplicationsStatus fails now db applicationId newStatus adminId).calls
            = pre ++ [DbCall.catchRollback, DbCall.release]))) := by
  refine @transition_table (fun out =>
      (out.response.success = false → out.store = db) ∧
      (∀ c ∈ out.calls, c ≠ DbCall.catchRollback → c ≠ DbCall.release →
        (fails c = true ∨ (c = DbCall.updateStatus ∧ fails DbCall.updateFindsNoRow = true)) →
        out.store = db ∧ out.response.success = false ∧
        ((fails DbCall.catchRollback = false ∨ c = DbCall.getConnection) →
          out.response = StatusResponse.serverError) ∧
        (fails DbCall.catchRollback = true → c ≠ DbCall.getConnection →
          out.response = StatusResponse.unanswered)) ∧
      (out.response = StatusResponse.serverError →
        (∃ c ∈ out.calls, c ≠ DbCall.catchRollback ∧ c ≠ DbCall.release ∧
          (fails c = true ∨ (c = DbCall.updateStatus ∧ fails DbCall.updateFindsNoRow = true))) ∧
        (out.calls = [DbCall.getConnection] ∨
          (fails DbCall.catchRollback = false ∧
            ∃ pre, out.calls = pre ++ [DbCall.catchRollback, DbCall.release]))))
    fails now db applicationId newStatus adminId ?_ ?_ ?_ ?_ ?_ ?_ ?_
  · intro _
    simp
  · intro _ _ _ _
    simp
  · intro _ _ _ _ h
    refine ⟨fun _ => rfl, ?_, fun _ => ⟨⟨DbCall.getConnection, by simp, by simp, by simp,
      Or.inl h⟩, Or.inl rfl⟩⟩
    intro c hc _ _ _
    simp only [List.mem_singleton] at hc
    exact ⟨rfl, rfl, fun _ => rfl, fun _ hne => absurd hc hne⟩
  · intro _ _ pre c _ _ g1 _ hc hmem _ _
    have hcr : c ≠ DbCall.catchRollback := by
      intro h; subst h; simp at hmem
    have hrel : c ≠ DbCall.release := by
      intro h; subst h; simp at hmem
    have hresp := catchBlock_response fails db (DbCall.getConnection :: (pre ++ [c]))
    have hns := catchBlock_not_success fails db (DbCall.getConnection :: (pre ++ [c]))
    refine ⟨fun _ => catchBlock_store _ _ _, ?_, ?_⟩
    · intro x _ _ _ hx
      refine ⟨catchBlock_store _ _ _, hns.1, ?_, fun h _ => hresp.2 h⟩
      intro h
      rcases h with h | h
      · exact hresp.1 h
      · exfalso
        subst h
        rcases hx with hx | ⟨hx, _⟩
        · rw [g1] at hx; cases hx
        · cases hx
    · intro hse
      have hcrf : fails DbCall.catchRollback = false := by
        cases hv : fails DbCall.catchRollback with
        | false => rfl
        | true => rw [hresp.2 hv] at hse; cases hse
      refine ⟨⟨c, ?_, hcr, hrel, hc⟩, Or.inr ⟨hcrf, _, catchBlock_calls _ _ _⟩⟩
      rw [catchBlock_calls]
      simp
  · intro _ _ _ _ g1 g2 g3 gr _
    refine ⟨fun _ => rfl, ?_, fun h => by cases h⟩
    intro c hc _ h2 hf
    exfalso
    simp only [List.mem_cons, List.mem_singleton, List.not_mem_nil, or_false] at hc
    rcases hc with rfl | rfl | rfl | rfl | rfl
    · rcases hf with hf | ⟨hf, _⟩
      · rw [g1] at hf; cases hf
      · cases hf
    · rcases hf with hf | ⟨hf, _⟩
      · rw [g2] at hf; cases hf
      · cases hf
    · rcases hf with hf | ⟨hf, _⟩
      · rw [g3] at hf; cases hf
      · cases hf
    · rcases hf with hf | ⟨hf, _⟩
      · rw [gr] at hf; cases hf
      · cases hf
    · exact h2 rfl
  · intro _ _ _ _ _ g1 g2 g3 gr _ _
    refine ⟨fun _ => rfl, ?_, fun h => by cases h⟩
    intro c hc _ h2 hf
    exfalso
    simp only [List.mem_cons, List.mem_singleton, List.not_mem_nil, or_false] at hc
    rcases hc with rfl | rfl | rfl | rfl | rfl
    · rcases hf with hf | ⟨hf, _⟩
      · rw [g1] at hf; cases hf
      · cases hf
    · rcases hf with hf | ⟨hf, _⟩
      · rw [g2] at hf; cases hf
      · cases hf
    · rcases hf with hf | ⟨hf, _⟩
      · rw [g3] at hf; cases hf
      · cases hf
    · rcases hf with hf | ⟨hf, _⟩
      · rw [gr] at hf; cases hf
      · cases hf
    · exact h2 rfl
  · intro _ _ _ pre _ _ _ _ g1 g2 g3 g5 g6 g7 g8 hpre
    refine ⟨fun h => by simp [StatusResponse.success] at h, ?_, fun h => by cases h⟩
    intro c hc _ h2 hf
    exfalso
    have hall : ∀ x ∈ [DbCall.getConnection, DbCall.beginTransaction, DbCall.selectStatus,
        DbCall.updateStatus] ++ pre ++ [DbCall.insertHistory, DbCall.commit],
        fails x = false := by
      rcases hpre with rfl | ⟨rfl, g10⟩
      · simp [g1, g2, g3, g5, g7, g8]
      · simp [g1, g2, g3, g5, g7, g8, g10]
    have hmem : c ∈ [DbCall.getConnection, DbCall.beginTransaction, DbCall.selectStatus,
        DbCall.updateStatus] ++ pre ++ [DbCall.insertHistory, DbCall.commit] := by
      have hc2 : c ∈ ([DbCall.getConnection, DbCall.beginTransaction, DbCall.selectStatus,
          DbCall.updateStatus] ++ pre ++ [DbCall.insertHistory, DbCall.commit]) ++
          [DbCall.release] := by
        simpa using hc
      rcases List.mem_append.mp hc2 with h | h
      · exact h
      · exact absurd (List.mem_singleton.mp h) h2
    rcases hf with hf | ⟨_, hf⟩
    · rw [hall c hmem] at hf; cases hf
    · rw [g6] at hf; cases hf

/-- C4, on the demonstration store: when the commit fails after the update and
the history insert went through, the answer is the 500 response and the
committed store is the old one. -/
theorem transition_atomic_witness :
    (putAdminApplicationsStatus (fun c => c == DbCall.commit) 100 demoStore 42
        (some "completed") (some 8)).response = StatusResponse.serverError ∧
    (putAdminApplicationsStatus (fun c => c == DbCall.commit) 100 demoStore 42
        (some "completed") (some 8)).store = demoStore :=
  have h := (transition_atomic (fun c => c == DbCall.commit) 100 demoStore 42
    (some "completed") (some 8)).2.1 DbCall.commit (by decide) (by decide) (by decide)
    (Or.inl (by decide))
  ⟨h.2.2.1 (Or.inl (by decide)), h.1⟩

/-- The update that affects no row, on the demonstration store: the 500 answer
is sent after the rollback and the committed store is the old one; when the
rollback of the `catch` block throws as well nothing is sent, and the store is
the old one all the same. -/
theorem transition_update_without_row :
    (putAdminApplicationsStatus (fun c => c == DbCall.updateFindsNoRow) 100 demoStore 42
        (some "completed") (some 8)).response = StatusResponse.serverError ∧
    (putAdminApplicationsStatus (fun c => c == DbCall.updateFindsNoRow) 100 demoStore 42
        (some "completed") (some 8)).store = demoStore ∧
    (putAdminApplicationsStatus (fun c => c == DbCall.updateFindsNoRow) 100 demoStore 42
        (some "completed") (some 8)).calls
      = [DbCall.getConnection, DbCall.beginTransaction, DbCall.selectStatus,
          DbCall.updateStatus, DbCall.catchRollback, DbCall.release] ∧
    (putAdminApplicationsStatus
        (fun c => c == DbCall.updateFindsNoRow || c == DbCall.catchRollback) 100 demoStore 42
        (some "completed") (some 8)).response = StatusResponse.unanswered ∧
    (putAdminApplicationsStatus
        (fun c => c == DbCall.updateFindsNoRow || c == DbCall.catchRollback) 100 demoStore 42
        (some "completed") (some 8)).store = demoStore := by
  refine ⟨by decide, by decide, by decide, by decide, by decide⟩

/-- C5. Classification of failures: a requested status outside the enumeration
(an absent one included) is refused with code 400, whatever the store holds,
without any persistence call and without touching the store; a status of the
enumeration for a key no stored application has is answered with 404 when the
connection, the transaction start, the read and the rollback that precedes the
answer do not fail; and when the application exists, the status is in the
enumeration and no persistence call fails, the answer is a success. -/
theorem transition_failure_classes (fails : DbCall → Bool) (now : Int) (db : Store)
    (applicationId : Nat) (newStatus : Option String) (adminId : Option Nat) :
    ((∀ str, newStatus = some str → Status.ofString? str = none) →
      ((putAdminApplicationsStatus fails now db applicationId newStatus adminId).response
          = StatusResponse.statusRequired ∨
        (putAdminApplicationsStatus fails now db applicationId newStatus adminId).response
          = StatusResponse.invalidStatus) ∧
      (putAdminApplicationsStatus fails now db applicationId newStatus adminId).response.httpStatus
        = 400 ∧
      (putAdminApplicationsStatus fails now db applicationId newStatus adminId).calls = [] ∧
      (putAdminApplicationsStatus fails now db applicationId newStatus adminId).store = db) ∧
    ((∃ str st, newStatus = some str ∧ Status.ofString? str = some st) →
      (∀ a ∈ db.applications, a.application_id ≠ applicationId) →
      fails DbCall.getConnection = false → fails DbCall.beginTransaction = false →
      fails DbCall.selectStatus = false → fails DbCall.rollback = false →
      (putAdminApplicationsStatus fails now db applicationId newStatus adminId).response
        = StatusResponse.notFound ∧
      (putAdminApplicationsStatus fails now db applicationId newStatus adminId).response.httpStatus
        = 404) ∧
    ((∃ str st, newStatus = some str ∧ Status.ofString? str = some st) →
      (∃ a ∈ db.applications, a.application_id = applicationId) →
      (∀ c, fails c = false) →
      (putAdminApplicationsStatus fails now db applicationId newStatus adminId).response.success
        = true ∧
      (putAdminApplicationsStatus fails now db applicationId newStatus adminId).response.httpStatus
        = 200) := by
  refine @transition_table (fun out =>
      ((∀ str, newStatus = some str → Status.ofString? str = none) →
        (out.response = StatusResponse.statusRequired ∨
          out.response = StatusResponse.invalidStatus) ∧
        out.response.httpStatus = 400 ∧ out.calls = [] ∧ out.store = db) ∧
      ((∃ str st, newStatus = some str ∧ Status.ofString? str = some st) →
        (∀ a ∈ db.applications, a.application_id ≠ applicationId) →
        fails DbCall.getConnection = false → fails DbCall.beginTransaction = false →
        fails DbCall.selectStatus = false → fails DbCall.rollback = false →
        out.response = StatusResponse.notFound ∧ out.response.httpStatus = 404) ∧
      ((∃ str st, newStatus = some str ∧ Status.ofString? str = some st) →
        (∃ a ∈ db.applications, a.application_id = applicationId) →
        (∀ c, fails c = false) →
        out.response.success = true ∧ out.response.httpStatus = 200))
    fails now db applicationId newStatus adminId ?_ ?_ ?_ ?_ ?_ ?_ ?_
  · intro h
    have hno : ¬ ∃ str st, newStatus = some str ∧ Status.ofString? str = some st := by
      rintro ⟨str, st, h1, h2⟩
      rcases h with h | h
      · rw [h] at h1; cases h1
      · rw [h] at h1
        cases h1
        simp [Status.ofString?] at h2
    exact ⟨fun _ => ⟨Or.inl rfl, rfl, rfl, rfl⟩, fun h => absurd h hno, fun h => absurd h hno⟩
  · intro str hsome _ hnone
    have hno : ¬ ∃ str st, newStatus = some str ∧ Status.ofString? str = some st := by
      rintro ⟨str2, st, h1, h2⟩
      rw [hsome] at h1
      cases h1
      rw [hnone] at h2
      cases h2
    exact ⟨fun _ => ⟨Or.inr rfl, rfl, rfl, rfl⟩, fun h => absurd h hno, fun h => absurd h hno⟩
  · intro str st hsome hst hf
    refine ⟨fun h => ?_, fun _ _ g1 => ?_, fun _ _ g => ?_⟩
    · rw [h str hsome] at hst; cases hst
    · rw [g1] at hf; cases hf
    · rw [g _] at hf; cases hf
  · intro str st pre c hsome hst _ _ hf _ _ hwhere
    refine ⟨fun h => ?_, fun _ hnone _ g2 g3 gr => ?_, fun _ _ g => ?_⟩
    · rw [h str hsome] at hst; cases hst
    · exfalso
      rcases hwhere with rfl | rfl | rfl | ⟨row, hrow, _⟩
      · rcases hf with hf | ⟨hf, _⟩
        · rw [g2] at hf; cases hf
        · cases hf
      · rcases hf with hf | ⟨hf, _⟩
        · rw [g3] at hf; cases hf
        · cases hf
      · rcases hf with hf | ⟨hf, _⟩
        · rw [gr] at hf; cases hf
        · cases hf
      · have hmem := List.mem_of_mem_head? hrow
        unfold currentApps at hmem
        rw [List.mem_filter] at hmem
        exact hnone row hmem.1 (by simpa using hmem.2)
    · exfalso
      rcases hf with hf | ⟨_, hf⟩
      · rw [g _] at hf; cases hf
      · rw [g _] at hf; cases hf
  · intro str st hsome hst _ _ _ _ hrow
    refine ⟨fun h => ?_, fun _ _ _ _ _ _ => ⟨rfl, rfl⟩, fun _ hex _ => ?_⟩
    · rw [h str hsome] at hst; cases hst
    · exfalso
      obtain ⟨a, ha, hid⟩ := hex
      have hmem : a ∈ currentApps db applicationId := by
        unfold currentApps
        rw [List.mem_filter]
        exact ⟨ha, by simp [hid]⟩
      cases hc : currentApps db applicationId with
      | nil => rw [hc] at hmem; cases hmem
      | cons x xs => rw [hc] at hrow; cases hrow
  · intro str st row hsome hst _ _ _ _ hrow _
    refine ⟨fun h => ?_, fun _ hnone _ _ _ _ => ?_, fun _ _ _ => ⟨rfl, rfl⟩⟩
    · rw [h str hsome] at hst; cases hst
    · exfalso
      have hmem := List.mem_of_mem_head? hrow
      unfold currentApps at hmem
      rw [List.mem_filter] at hmem
      exact hnone row hmem.1 (by simpa using hmem.2)
  · intro str st row pre hsome hst hrow _ _ _ _ _ _ _ _ _
    refine ⟨fun h => ?_, fun _ hnone _ _ _ _ => ?_, fun _ _ _ => ⟨rfl, rfl⟩⟩
    · rw [h str hsome] at hst; cases hst
    · exfalso
      have hmem := List.mem_of_mem_head? hrow
      unfold currentApps at hmem
      rw [List.mem_filter] at hmem
      exact hnone row hmem.1 (by simpa using hmem.2)

/-- C5, on the demonstration store: the status `archived` is refused with code
400 and no persistence call, although the application 9 exists. -/
theorem transition_failure_classes_witness :
    (putAdminApplicationsStatus noFailure 100 demoStore 9 (some "archived") (some 8)).response.httpStatus
      = 400 ∧
    (putAdminApplicationsStatus noFailure 100 demoStore 9 (some "archived") (some 8)).calls = [] :=
  have h := (transition_failure_classes noFailure 100 demoStore 9 (some "archived")
    (some 8)).1 (by
      intro str hstr
      cases hstr
      decide)
  ⟨h.2.1, h.2.2.1⟩

/-- The "not found" exit when its rollback throws, on the demonstration store:
no 404 is sent; the `catch` block answers with 500, or with nothing when its own
rollback throws as well. -/
theorem transition_not_found_rollback_failure :
    (putAdminApplicationsStatus noFailure 100 demoStore 77 (some "new") none).response
      = StatusResponse.notFound ∧
    (putAdminApplicationsStatus (fun c => c == DbCall.rollback) 100 demoStore 77
        (some "new") none).response = StatusResponse.serverError ∧
    (putAdminApplicationsStatus (fun c => c == DbCall.rollback || c == DbCall.catchRollback)
        100 demoStore 77 (some "new") none).response = StatusResponse.unanswered := by
  refine ⟨by decide, by decide, by decide⟩

/-! ## Properties of the review handler -/

theorem ownedApplications_eq_filter (db : Store) (i u : Nat) :
    ownedApplications db i u = (currentApps db i).filter (fun a => a.user_id == u) := by
  unfold ownedApplications currentApps
  rw [List.filter_filter]
  apply List.filter_congr
  intro a _
  exact Bool.and_comm _ _

theorem ownedApplications_of_mem {db : Store} (hwf : db.WF) {a : Application}
    (ha : a ∈ db.applications) :
    ownedApplications db a.application_id a.user_id = [a] := by
  rw [ownedApplications_eq_filter, currentApps_of_mem hwf ha]
  simp

/-- C7. Review gating: on a sound store, for a stored application that is not
`completed`, a review by its owner with a rating between 1 and 5 is refused
with the answer "only for completed courses" after the single read of the
application, the store is unchanged (no review row is inserted), whatever
reviews the store already holds. -/
theorem review_gating (fails : DbCall → Bool) (db : Store) (a : Application) (r : ℚ)
    (hwf : db.WF) (ha : a ∈ db.applications) (hst : a.status ≠ Status.completed)
    (h1 : 1 ≤ r) (h5 : r ≤ 5) (hf : fails DbCall.selectApplication = false) :
    (postReviews fails db a.user_id a.application_id (some r)).response
      = ReviewResponse.notCompleted ∧
    (postReviews fails db a.user_id a.application_id (some r)).store = db ∧
    (postReviews fails db a.user_id a.application_id (some r)).calls
      = [DbCall.selectApplication] := by
  have hu : a.user_id ≠ 0 := Nat.pos_iff_ne_zero.mp (hwf.owner_pos a ha)
  have hi : a.application_id ≠ 0 := Nat.pos_iff_ne_zero.mp (hwf.ids_pos a ha)
  have hr0 : r ≠ 0 := by
    intro h
    rw [h] at h1
    exact absurd h1 (by norm_num)
  have hlt : ¬ r < 1 := not_lt.mpr h1
  have hgt : ¬ r > 5 := not_lt.mpr h5
  unfold postReviews
  simp [hu, hi, hr0, hlt, hgt, hf, ownedApplications_of_mem hwf ha, hst]

/-- C7, on the demonstration store: the application 42 is in progress, and its
owner's review with rating 4 is refused. -/
theorem review_gating_witness :
    (postReviews noFailure demoStore 3 42 (some 4)).response = ReviewResponse.notCompleted ∧
    (postReviews noFailure demoStore 3 42 (some 4)).store = demoStore :=
  have h := review_gating noFailure demoStore
    ⟨42, 3, 1, "2030-02-01", PaymentMethod.phone_transfer, Status.in_progress, 6⟩ 4
    demoStore_wf (by decide) (by decide) (by norm_num) (by norm_num) rfl
  ⟨h.1, h.2.1⟩

/-! ## Properties of the creation handler -/

/-- Local midnight on a day the offset changes: at 14:00 of 2030-03-31 on the
clock of `demoZone`, one hour ahead of UTC by then, `setHours(0, 0, 0, 0)`
gives midnight of that day under the offset in force at midnight, which is
00:00 UTC, not 23:00 UTC of the day before. -/
theorem setHoursZero_on_offset_change :
    localDay demoZone 1901192400000 = 22004 ∧
    setHoursZero demoZone 1901192400000 = 1901145600000 ∧
    setHoursZero (Zone.fixed 3600000) 1901192400000 = 1901142000000 := by
  refine ⟨by decide, by decide, by decide⟩

theorem isoDateOnly_ne_empty {s : String} {d : Int} (h : isoDateOnly s = some d) :
    s ≠ "" := by
  rintro rfl
  simp [isoDateOnly] at h

theorem dateConstructor_of_isoDateOnly (otherDate : String → Option Int) {s : String}
    {d : Int} (h : isoDateOnly s = some d) :
    dateConstructor otherDate s = some (d * msPerDay) := by
  simp [dateConstructor, h]

/-- The date test of the handler on a date-only string, for a clock at a fixed
offset of less than a day from UTC: the date sent, day `d`, is refused exactly
when it is an earlier day than today's on the server clock, or is today's and
the clock is behind UTC. -/
theorem dateBefore_dateOnly_fixed (otherDate : String → Option Int) (offset now : Int)
    (s : String) (d : Int) (h : isoDateOnly s = some d)
    (hlo : -msPerDay < offset) (hhi : offset < msPerDay) :
    dateBefore (dateConstructor otherDate s) (setHoursZero (Zone.fixed offset) now) = true ↔
      (d < localDay (Zone.fixed offset) now ∨
        (d = localDay (Zone.fixed offset) now ∧ offset < 0)) := by
  rw [dateConstructor_of_isoDateOnly otherDate h]
  simp only [dateBefore, decide_eq_true_eq, setHoursZero, Zone.fixed]
  generalize localDay _ now = today
  simp only [msPerDay] at hlo hhi ⊢
  constructor
  · intro hlt
    omega
  · intro hor
    omega

/-- An unreadable start date is never refused as past: the comparison with an
invalid date is false, so the handler goes on to the inserts. -/
theorem create_never_refuses_unreadable_date (fails : DbCall → Bool)
    (otherDate : String → Option Int) (zone : Zone) (now : Int) (db : Store)
    (userId courseId : Nat) (startDate paymentMethod : String)
    (h : dateConstructor otherDate startDate = none) :
    (postApplications fails otherDate zone now db userId courseId startDate
      paymentMethod).response ≠ CreateResponse.pastDate := by
  unfold postApplications
  rw [h]
  simp only [dateBefore]
  by_cases h0 : userId = 0 ∨ courseId = 0 ∨ startDate = "" ∨ paymentMethod = ""
  · rw [if_pos h0]
    simp
  · rw [if_neg h0]
    cases PaymentMethod.ofString? paymentMethod with
    | none => simp
    | some pm =>
      simp only
      split_ifs <;> first | contradiction | simp

/-- The answer of the creation handler to a date-only start date, for a clock
at a fixed offset of less than a day from UTC: with an existing user, an
existing active course, a valid payment method and the two reads not failing,
the request is refused as a past date exactly when the date sent is an earlier
day than today's on the server clock, or is today's and the clock is behind
UTC; a refusal leaves the store untouched. -/
theorem create_date_only_answer (fails : DbCall → Bool) (otherDate : String → Option Int)
    (offset now : Int) (db : Store) (userId courseId : Nat) (startDate paymentMethod : String)
    (pm : PaymentMethod) (d : Int)
    (hu : ∃ u ∈ db.users, u.user_id = userId) (hu0 : 0 < userId)
    (hc : ∃ c ∈ db.courses, c.course_id = courseId ∧ c.is_active = true) (hc0 : 0 < courseId)
    (hpm : PaymentMethod.ofString? paymentMethod = some pm)
    (hd : isoDateOnly startDate = some d)
    (hlo : -msPerDay < offset) (hhi : offset < msPerDay)
    (f1 : fails DbCall.selectUser = false) (f2 : fails DbCall.selectCourse = false) :
    ((postApplications fails otherDate (Zone.fixed offset) now db userId courseId startDate
        paymentMethod).response = CreateResponse.pastDate ↔
      (d < localDay (Zone.fixed offset) now ∨
        (d = localDay (Zone.fixed offset) now ∧ offset < 0))) ∧
    ((postApplications fails otherDate (Zone.fixed offset) now db userId courseId startDate
        paymentMethod).response = CreateResponse.pastDate →
      (postApplications fails otherDate (Zone.fixed offset) now db userId courseId startDate
        paymentMethod).store = db) := by
  have hu1 : userId ≠ 0 := Nat.pos_iff_ne_zero.mp hu0
  have hc1 : courseId ≠ 0 := Nat.pos_iff_ne_zero.mp hc0
  have hsd := isoDateOnly_ne_empty hd
  have hp : paymentMethod ≠ "" := by
    rintro rfl
    simp [PaymentMethod.ofString?] at hpm
  have husers : (usersById db userId).length ≠ 0 := by
    obtain ⟨u, hmem, hid⟩ := hu
    have : u ∈ usersById db userId := by
      unfold usersById
      rw [List.mem_filter]
      exact ⟨hmem, by simp [hid]⟩
    exact Nat.pos_iff_ne_zero.mp (List.length_pos_of_mem this)
  have hcourses : (activeCourses db courseId).length ≠ 0 := by
    obtain ⟨c, hmem, hid, hact⟩ := hc
    have : c ∈ activeCourses db courseId := by
      unfold activeCourses
      rw [List.mem_filter]
      exact ⟨hmem, by simp [hid, hact]⟩
    exact Nat.pos_iff_ne_zero.mp (List.length_pos_of_mem this)
  have hcmp := dateBefore_dateOnly_fixed otherDate offset now startDate d hd hlo hhi
  cases hb : dateBefore (dateConstructor otherDate startDate)
      (setHoursZero (Zone.fixed offset) now) with
  | true =>
    have hout : postApplications fails otherDate (Zone.fixed offset) now db userId courseId
        startDate paymentMethod
        = ⟨CreateResponse.pastDate, db, [DbCall.selectUser, DbCall.selectCourse]⟩ := by
      unfold postApplications
      simp [hu1, hc1, hsd, hp, hpm, f1, f2, husers, hcourses, hb]
    rw [hout]
    exact ⟨⟨fun _ => hcmp.mp hb, fun _ => rfl⟩, fun _ => rfl⟩
  | false =>
    have hne : (postApplications fails otherDate (Zone.fixed offset) now db userId courseId
        startDate paymentMethod).response ≠ CreateResponse.pastDate := by
      unfold postApplications
      simp only [hu1, hc1, hsd, hp, hpm, hb, false_or, if_false]
      split_ifs <;> first | contradiction | simp
    refine ⟨⟨fun h => absurd h hne, fun h => ?_⟩, fun h => absurd h hne⟩
    rw [hcmp.mpr h] at hb
    cases hb

/-- C9, at the failing input.  The server clock is five hours behind UTC and
shows noon of 2030-01-15; the start date sent is `2030-01-15`, today's date on
that clock.  The `Date` constructor reads the string as midnight UTC, which is
19:00 of the day before on the server clock, while `setHours(0, 0, 0, 0)` gives
local midnight of today: the request is refused as a past date. -/
theorem create_refuses_today_behind_utc :
    isoDateOnly "2030-01-15" = some 21929 ∧
    localDay (Zone.fixed (-18000000)) 1894726800000 = 21929 ∧
    dateConstructor (fun _ => none) "2030-01-15" = some 1894665600000 ∧
    setHoursZero (Zone.fixed (-18000000)) 1894726800000 = 1894683600000 ∧
    (postApplications noFailure (fun _ => none) (Zone.fixed (-18000000)) 1894726800000
        demoStore 3 1 "2030-01-15" "cash").response = CreateResponse.pastDate := by
  refine ⟨by decide, by decide, by decide, by decide, by decide⟩

/-- C10, refuted as stated: the rating 2.5 is not an integer, yet the handler
does not answer "out of range" for it: it consults the store and, for the
completed application 9 of user 3, inserts the review row with that rating;
and the rating 0 is refused as a missing field, not as out of range. -/
theorem review_rating_counterexample :
    (¬ ∃ n : ℤ, (n : ℚ) = 5 / 2) ∧
    (postReviews noFailure demoStore 3 9 (some (5 / 2))).response = ReviewResponse.created 1 ∧
    (postReviews noFailure demoStore 3 9 (some (5 / 2))).calls
      = [DbCall.selectApplication, DbCall.selectReviews, DbCall.insertReview] ∧
    (postReviews noFailure demoStore 3 9 (some (5 / 2))).store.reviews = [⟨1, 3, 9, 5 / 2⟩] ∧
    (postReviews noFailure demoStore 3 9 (some 0)).response = ReviewResponse.missingFields := by
  have hfrac : ¬ ∃ n : ℤ, (n : ℚ) = 5 / 2 := by
    rintro ⟨n, hn⟩
    have h2 : (2 : ℚ) * n = 5 := by rw [hn]; norm_num
    have h3 : (2 : ℤ) * n = 5 := by exact_mod_cast h2
    omega
  refine ⟨hfrac, ?_, ?_, ?_, ?_⟩ <;>
    simp [postReviews, noFailure, demoStore, ownedApplications, existingReviews, insertReview] <;>
    norm_num

/-- C10, amended. For every store: an absent rating and a rating equal to 0 are
refused as a missing field, and for present user and application ids a rating
below 1 (other than 0) or above 5 is refused as out of range, in all these cases
without any persistence call and without touching the store; and a rating from
1 to 5, whole or not, is never refused as out of range. -/
theorem review_rating_range (fails : DbCall → Bool) (db : Store) (userId applicationId : Nat)
    (r : ℚ) :
    postReviews fails db userId applicationId none
      = ⟨ReviewResponse.missingFields, db, []⟩ ∧
    (r = 0 → postReviews fails db userId applicationId (some r)
      = ⟨ReviewResponse.missingFields, db, []⟩) ∧
    (userId ≠ 0 → applicationId ≠ 0 → r ≠ 0 → (r < 1 ∨ 5 < r) →
      postReviews fails db userId applicationId (some r)
        = ⟨ReviewResponse.ratingOutOfRange, db, []⟩) ∧
    (1 ≤ r → r ≤ 5 →
      (postReviews fails db userId applicationId (some r)).response
        ≠ ReviewResponse.ratingOutOfRange) := by
  refine ⟨rfl, ?_, ?_, ?_⟩
  · intro h0
    simp [postReviews, h0]
  · intro hu hi h0 hr
    have : r < 1 ∨ r > 5 := hr
    simp [postReviews, hu, hi, h0, this]
  · intro h1 h5
    have hlt : ¬ r < 1 := not_lt.mpr h1
    have hgt : ¬ r > 5 := not_lt.mpr h5
    unfold postReviews
    simp only [hlt, hgt, or_self, if_false]
    cases hrow : (ownedApplications db applicationId userId).head? with
    | none => split_ifs <;> simp
    | some row =>
      by_cases hc : row.status = Status.completed
      · simp only [hc, ne_eq, not_true_eq_false, if_false]
        split_ifs <;> simp
      · simp only [hc, ne_eq, not_false_eq_true, if_true]
        split_ifs <;> simp

/-- C10 amended, on the demonstration store: the rating 7 is refused as out of
range before any persistence call. -/
theorem review_rating_range_witness :
    postReviews noFailure demoStore 3 9 (some 7)
      = ⟨ReviewResponse.ratingOutOfRange, demoStore, []⟩ :=
  (review_rating_range noFailure demoStore 3 9 7).2.2.1 (by decide) (by decide) (by norm_num)
    (Or.inr (by norm_num))

/-! ## Invariants of the store along a run -/

theorem initial_wf (users : List User) (courses : List Course) :
    (Store.initial users courses).WF :=
  ⟨by simp [Store.initial], by simp [Store.initial], by simp [Store.initial],
    by simp [Store.initial], by simp [Store.initial]⟩

theorem map_id_setStatus (now : Int) (st : Status) (i : Nat) (l : List Application) :
    (l.map (setStatus now st i)).map (fun a => a.application_id)
      = l.map (fun a => a.application_id) := by
  rw [List.map_map]
  apply List.map_congr_left
  intro a _
  exact setStatus_id now st i a

theorem wf_update {db : Store} (hwf : db.WF) (now : Int) (st : Status) (i : Nat) :
    (updateApplicationStatus now st i db).WF := by
  refine ⟨?_, ?_, ?_, ?_, hwf.next_pos⟩
  · intro a ha
    rw [update_applications, List.mem_map] at ha
    obtain ⟨b, hb, rfl⟩ := ha
    rw [setStatus_id]
    exact hwf.ids_pos b hb
  · intro a ha
    rw [update_applications, List.mem_map] at ha
    obtain ⟨b, hb, rfl⟩ := ha
    rw [setStatus_id]
    exact hwf.ids_lt b hb
  · rw [update_applications, map_id_setStatus]
    exact hwf.ids_nodup
  · intro a ha
    rw [update_applications, List.mem_map] at ha
    obtain ⟨b, hb, rfl⟩ := ha
    rw [setStatus_user]
    exact hwf.owner_pos b hb

theorem wf_insertStatusHistory {db : Store} (hwf : db.WF) (e : StatusHistoryEntry) :
    (insertStatusHistory e db).WF :=
  ⟨hwf.ids_pos, hwf.ids_lt, hwf.ids_nodup, hwf.owner_pos, hwf.next_pos⟩

theorem wf_insertReview {db : Store} (hwf : db.WF) (u i : Nat) (r : ℚ) :
    (insertReview u i r db).WF :=
  ⟨hwf.ids_pos, hwf.ids_lt, hwf.ids_nodup, hwf.owner_pos, hwf.next_pos⟩

theorem wf_insertApplication {db : Store} (hwf : db.WF) (now : Int) (u c : Nat)
    (sd : String) (pm : PaymentMethod) (hu : u ≠ 0) :
    (insertApplication now u c sd pm db).WF := by
  refine ⟨?_, ?_, ?_, ?_, ?_⟩
  · intro a ha
    simp only [insertApplication, List.mem_append, List.mem_singleton] at ha
    rcases ha with ha | rfl
    · exact hwf.ids_pos a ha
    · exact hwf.next_pos
  · intro a ha
    simp only [insertApplication, List.mem_append, List.mem_singleton] at ha
    rcases ha with ha | rfl
    · exact Nat.lt_succ_of_lt (hwf.ids_lt a ha)
    · exact Nat.lt_succ_self _
  · simp only [insertApplication, List.map_append, List.map_cons, List.map_nil]
    rw [List.nodup_append]
    refine ⟨hwf.ids_nodup, List.nodup_singleton _, ?_⟩
    intro x hx hx2
    rw [List.mem_singleton] at hx2
    rw [List.mem_map] at hx
    obtain ⟨a, ha, rfl⟩ := hx
    exact absurd hx2 (Nat.ne_of_lt (hwf.ids_lt a ha))
  · intro a ha
    simp only [insertApplication, List.mem_append, List.mem_singleton] at ha
    rcases ha with ha | rfl
    · exact hwf.owner_pos a ha
    · exact Nat.pos_of_ne_zero hu
  · exact Nat.succ_pos _

/-- The committed store after the creation handler: the old one, the old one
with the new application row, or that with the creation entry as well. -/
theorem create_store_cases (fails : DbCall → Bool) (otherDate : String → Option Int)
    (zone : Zone) (now : Int) (db : Store) (userId courseId : Nat) (startDate paymentMethod : String) :
    (postApplications fails otherDate zone now db userId courseId startDate paymentMethod).store
      = db ∨
    ∃ pm, userId ≠ 0 ∧
      ((fails DbCall.insertCreationHistory = true ∧
        (postApplications fails otherDate zone now db userId courseId startDate
          paymentMethod).store = insertApplication now userId courseId startDate pm db) ∨
       (postApplications fails otherDate zone now db userId courseId startDate
          paymentMethod).store
        = insertStatusHistory
            { application_id := db.nextApplicationId, old_status := none,
              new_status := Status.new, changed_by := some userId,
              change_comment := createdComment }
            (insertApplication now userId courseId startDate pm db)) := by
  unfold postApplications
  by_cases h0 : userId = 0 ∨ courseId = 0 ∨ startDate = "" ∨ paymentMethod = ""
  · rw [if_pos h0]; exact Or.inl rfl
  rw [if_neg h0]
  have hu : userId ≠ 0 := fun h => h0 (Or.inl h)
  cases hpm : PaymentMethod.ofString? paymentMethod with
  | none => exact Or.inl rfl
  | some pm =>
    dsimp only
    split_ifs with h1 h2 h3 h4 h5 h6 h7
    · exact Or.inl rfl
    · exact Or.inl rfl
    · exact Or.inl rfl
    · exact Or.inl rfl
    · exact Or.inl rfl
    · exact Or.inl rfl
    · exact Or.inr ⟨pm, hu, Or.inl ⟨h7, rfl⟩⟩
    · exact Or.inr ⟨pm, hu, Or.inr rfl⟩

/-- The committed store after the review handler: the old one, or the old one
with one review row, written for a completed application of the reviewing user that
had no review by them. -/
theorem review_store_cases (fails : DbCall → Bool) (db : Store) (userId applicationId : Nat)
    (rating : Option ℚ) :
    ((postReviews fails db userId applicationId rating).store = db ∧
      ∀ k, (postReviews fails db userId applicationId rating).response
        ≠ ReviewResponse.created k) ∨
    ∃ r app, rating = some r ∧ userId ≠ 0 ∧ applicationId ≠ 0 ∧ ¬ (r < 1 ∨ r > 5) ∧
      (ownedApplications db applicationId userId).head? = some app ∧
      app.status = Status.completed ∧
      existingReviews db applicationId userId = [] ∧
      (postReviews fails db userId applicationId rating).response
        = ReviewResponse.created db.nextReviewId ∧
      (postReviews fails db userId applicationId rating).store
        = insertReview userId applicationId r db := by
  unfold postReviews
  cases rating with
  | none => exact Or.inl ⟨rfl, by simp⟩
  | some r =>
    dsimp only
    by_cases h0 : userId = 0 ∨ applicationId = 0 ∨ r = 0
    · rw [if_pos h0]; exact Or.inl ⟨rfl, by simp⟩
    rw [if_neg h0]
    by_cases h1 : r < 1 ∨ r > 5
    · rw [if_pos h1]; exact Or.inl ⟨rfl, by simp⟩
    rw [if_neg h1]
    by_cases h2 : fails DbCall.selectApplication = true
    · rw [if_pos h2]; exact Or.inl ⟨rfl, by simp⟩
    rw [if_neg h2]
    cases hrow : (ownedApplications db applicationId userId).head? with
    | none => exact Or.inl ⟨rfl, by simp⟩
    | some app =>
      dsimp only
      by_cases h3 : app.status ≠ Status.completed
      · rw [if_pos h3]; exact Or.inl ⟨rfl, by simp⟩
      rw [if_neg h3]
      by_cases h4 : fails DbCall.selectReviews = true
      · rw [if_pos h4]; exact Or.inl ⟨rfl, by simp⟩
      rw [if_neg h4]
      by_cases h5 : (existingReviews db applicationId userId).length > 0
      · rw [if_pos h5]; exact Or.inl ⟨rfl, by simp⟩
      rw [if_neg h5]
      by_cases h6 : fails DbCall.insertReview = true
      · rw [if_pos h6]; exact Or.inl ⟨rfl, by simp⟩
      rw [if_neg h6]
      refine Or.inr ⟨r, app, rfl, fun h => h0 (Or.inl h), fun h => h0 (Or.inr (Or.inl h)), h1,
        rfl, ?_, ?_, rfl, rfl⟩
      · exact not_not.mp h3
      · exact List.length_eq_zero.mp (Nat.eq_zero_of_not_pos h5)

theorem eq_of_application_id_eq {db : Store} (hwf : db.WF) {a b : Application}
    (ha : a ∈ db.applications) (hb : b ∈ db.applications)
    (h : a.application_id = b.application_id) : a = b := by
  have hcur := currentApps_of_mem hwf hb
  have hmem : a ∈ currentApps db b.application_id := by
    unfold currentApps
    rw [List.mem_filter]
    exact ⟨ha, by simp [h]⟩
  rw [hcur] at hmem
  exact List.mem_singleton.mp hmem

theorem reviewInv_initial (users : List User) (courses : List Course) :
    (Store.initial users courses).ReviewInv :=
  ⟨initial_wf users courses, by simp [Store.initial], by simp [Store.initial]⟩

theorem reviewInv_insertStatusHistory {db : Store} (h : db.ReviewInv)
    (e : StatusHistoryEntry) : (insertStatusHistory e db).ReviewInv :=
  ⟨wf_insertStatusHistory h.wf e, h.owned, h.unique⟩

theorem reviewInv_update {db : Store} (h : db.ReviewInv) (now : Int) (st : Status)
    (i : Nat) : (updateApplicationStatus now st i db).ReviewInv := by
  refine ⟨wf_update h.wf now st i, ?_, h.unique⟩
  intro r hr
  obtain ⟨a, ha, hid, hus⟩ := h.owned r hr
  refine ⟨setStatus now st i a, ?_, ?_, ?_⟩
  · rw [update_applications]
    exact List.mem_map_of_mem _ ha
  · rw [setStatus_id]; exact hid
  · rw [setStatus_user]; exact hus

theorem reviewInv_insertApplication {db : Store} (h : db.ReviewInv) (now : Int)
    (u c : Nat) (sd : String) (pm : PaymentMethod) (hu : u ≠ 0) :
    (insertApplication now u c sd pm db).ReviewInv := by
  refine ⟨wf_insertApplication h.wf now u c sd pm hu, ?_, h.unique⟩
  intro r hr
  obtain ⟨a, ha, hid, hus⟩ := h.owned r hr
  exact ⟨a, by simp [insertApplication, ha], hid, hus⟩

theorem reviewInv_insertReview {db : Store} (h : db.ReviewInv) (u i : Nat) (q : ℚ)
    (app : Application) (happ : (ownedApplications db i u).head? = some app)
    (hnone : existingReviews db i u = []) : (insertReview u i q db).ReviewInv := by
  have hmem := List.mem_of_mem_head? happ
  unfold ownedApplications at hmem
  rw [List.mem_filter] at hmem
  obtain ⟨happ_mem, hcond⟩ := hmem
  simp only [Bool.and_eq_true, beq_iff_eq] at hcond
  refine ⟨wf_insertReview h.wf u i q, ?_, ?_⟩
  · intro r hr
    simp only [insertReview, List.mem_append, List.mem_singleton] at hr
    rcases hr with hr | rfl
    · exact h.owned r hr
    · exact ⟨app, happ_mem, hcond.1, hcond.2⟩
  · simp only [insertReview, List.map_append, List.map_cons, List.map_nil]
    rw [List.nodup_append]
    refine ⟨h.unique, List.nodup_singleton _, ?_⟩
    intro x hx hx2
    rw [List.mem_singleton] at hx2
    rw [List.mem_map] at hx
    obtain ⟨r, hr, hrx⟩ := hx
    obtain ⟨a, ha, hid, hus⟩ := h.owned r hr
    have hsame : a = app :=
      eq_of_application_id_eq h.wf ha happ_mem (by rw [hid, hrx, hx2, hcond.1])
    have hin : r ∈ existingReviews db i u := by
      unfold existingReviews
      rw [List.mem_filter]
      refine ⟨hr, ?_⟩
      simp only [Bool.and_eq_true, beq_iff_eq]
      exact ⟨by rw [hrx, hx2], by rw [← hus, hsame, hcond.2]⟩
    rw [hnone] at hin
    cases hin

/-- Serving any request, under any failures, keeps the review invariant. -/
theorem reviewInv_apply {db : Store} (h : db.ReviewInv) (req : Request) :
    (req.apply db).ReviewInv := by
  cases req with
  | create fails otherDate zone now userId courseId startDate paymentMethod =>
    show (postApplications fails otherDate zone now db userId courseId startDate
      paymentMethod).store.ReviewInv
    rcases create_store_cases fails otherDate zone now db userId courseId startDate
      paymentMethod with he | ⟨pm, hu, ⟨_, he⟩ | he⟩
    · rw [he]; exact h
    · rw [he]; exact reviewInv_insertApplication h now userId courseId startDate pm hu
    · rw [he]
      exact reviewInv_insertStatusHistory
        (reviewInv_insertApplication h now userId courseId startDate pm hu) _
  | transition fails now applicationId newStatus adminId =>
    show (putAdminApplicationsStatus fails now db applicationId newStatus
      adminId).store.ReviewInv
    refine @transition_elim (fun out => out.store.ReviewInv) fails now db applicationId
      newStatus adminId ?_ ?_
    · intro _ _ _
      exact h
    · intro _ newSt _ _ _ _ _ _
      exact reviewInv_insertStatusHistory (reviewInv_update h now newSt applicationId) _
  | review fails userId applicationId rating =>
    show (postReviews fails db userId applicationId rating).store.ReviewInv
    rcases review_store_cases fails db userId applicationId rating with
      ⟨he, _⟩ | ⟨r, app, _, _, _, _, happ, _, hnone, _, he⟩
    · rw [he]; exact h
    · rw [he]; exact reviewInv_insertReview h userId applicationId r app happ hnone

theorem reviewInv_run (reqs : List Request) :
    ∀ db : Store, db.ReviewInv → (run db reqs).ReviewInv := by
  induction reqs with
  | nil => intro db h; exact h
  | cons req rest ih =>
    intro db h
    exact ih (req.apply db) (reviewInv_apply h req)

theorem reviewsOf_length_le_one {db : Store} (h : db.ReviewInv) (i : Nat) :
    (reviewsOf db i).length ≤ 1 := by
  have hcount : (db.reviews.map (fun r => r.application_id)).count i ≤ 1 :=
    List.nodup_iff_count_le_one.mp h.unique i
  have hlen : (reviewsOf db i).length
      = (db.reviews.map (fun r => r.application_id)).count i := by
    unfold reviewsOf
    rw [List.count_eq_countP, List.countP_map, List.countP_eq_length_filter]
    congr 1
  rw [hlen]
  exact hcount

theorem apply_keeps_reviews (db : Store) (req : Request) (r : Review)
    (hr : r ∈ db.reviews) : r ∈ (req.apply db).reviews := by
  cases req with
  | create fails otherDate zone now userId courseId startDate paymentMethod =>
    show r ∈ (postApplications fails otherDate zone now db userId courseId startDate
      paymentMethod).store.reviews
    rcases create_store_cases fails otherDate zone now db userId courseId startDate
      paymentMethod with he | ⟨pm, _, ⟨_, he⟩ | he⟩ <;> rw [he] <;> exact hr
  | transition fails now applicationId newStatus adminId =>
    show r ∈ (putAdminApplicationsStatus fails now db applicationId newStatus
      adminId).store.reviews
    refine @transition_elim (fun out => r ∈ out.store.reviews) fails now db applicationId
      newStatus adminId ?_ ?_
    · intro _ _ _
      exact hr
    · intro _ _ _ _ _ _ _ _
      exact hr
  | review fails userId applicationId rating =>
    show r ∈ (postReviews fails db userId applicationId rating).store.reviews
    rcases review_store_cases fails db userId applicationId rating with
      ⟨he, _⟩ | ⟨q, _, _, _, _, _, _, _, _, _, he⟩
    · rw [he]; exact hr
    · rw [he]
      simp [insertReview, hr]

theorem apply_keeps_owner (db : Store) (req : Request) (i u : Nat)
    (h : ∃ a ∈ db.applications, a.application_id = i ∧ a.user_id = u) :
    ∃ a ∈ (req.apply db).applications, a.application_id = i ∧ a.user_id = u := by
  obtain ⟨a, ha, hi, hu⟩ := h
  cases req with
  | create fails otherDate zone now userId courseId startDate paymentMethod =>
    show ∃ a ∈ (postApplications fails otherDate zone now db userId courseId startDate
      paymentMethod).store.applications, a.application_id = i ∧ a.user_id = u
    rcases create_store_cases fails otherDate zone now db userId courseId startDate
      paymentMethod with he | ⟨pm, _, ⟨_, he⟩ | he⟩
    · rw [he]; exact ⟨a, ha, hi, hu⟩
    · rw [he]; exact ⟨a, by simp [insertApplication, ha], hi, hu⟩
    · rw [he]; exact ⟨a, by simp [insertStatusHistory, insertApplication, ha], hi, hu⟩
  | transition fails now applicationId newStatus adminId =>
    show ∃ a ∈ (putAdminApplicationsStatus fails now db applicationId newStatus
      adminId).store.applications, a.application_id = i ∧ a.user_id = u
    refine @transition_elim (fun out => ∃ a ∈ out.store.applications,
      a.application_id = i ∧ a.user_id = u) fails now db applicationId newStatus adminId ?_ ?_
    · intro _ _ _
      exact ⟨a, ha, hi, hu⟩
    · intro _ newSt _ _ _ _ _ _
      refine ⟨setStatus now newSt applicationId a, ?_, ?_, ?_⟩
      · show setStatus now newSt applicationId a
          ∈ (updateApplicationStatus now newSt applicationId db).applications
        rw [update_applications]
        exact List.mem_map_of_mem _ ha
      · rw [setStatus_id]; exact hi
      · rw [setStatus_user]; exact hu
  | review fails userId applicationId rating =>
    show ∃ a ∈ (postReviews fails db userId applicationId rating).store.applications,
      a.application_id = i ∧ a.user_id = u
    rcases review_store_cases fails db userId applicationId rating with
      ⟨he, _⟩ | ⟨q, _, _, _, _, _, _, _, _, _, he⟩
    · rw [he]; exact ⟨a, ha, hi, hu⟩
    · rw [he]; exact ⟨a, ha, hi, hu⟩

theorem run_keeps_reviews (reqs : List Request) :
    ∀ (db : Store) (r : Review), r ∈ db.reviews → r ∈ (run db reqs).reviews := by
  induction reqs with
  | nil => intro db r h; exact h
  | cons req rest ih =>
    intro db r h
    exact ih (req.apply db) r (apply_keeps_reviews db req r h)

theorem run_keeps_owner (reqs : List Request) :
    ∀ (db : Store) (i u : Nat),
      (∃ a ∈ db.applications, a.application_id = i ∧ a.user_id = u) →
      ∃ a ∈ (run db reqs).applications, a.application_id = i ∧ a.user_id = u := by
  induction reqs with
  | nil => intro db i u h; exact h
  | cons req rest ih =>
    intro db i u h
    exact ih (req.apply db) i u (apply_keeps_owner db req i u h)

theorem existingReviews_length_le_one {db : Store} (h : db.ReviewInv) (i u : Nat) :
    (existingReviews db i u).length ≤ 1 := by
  have hle : (existingReviews db i u).length ≤ (reviewsOf db i).length := by
    have heq : existingReviews db i u = (reviewsOf db i).filter (fun r => r.user_id == u) := by
      unfold existingReviews reviewsOf
      rw [List.filter_filter]
      apply List.filter_congr
      intro r _
      exact Bool.and_comm _ _
    rw [heq]
    exact List.length_filter_le _ _
  exact Nat.le_trans hle (reviewsOf_length_le_one h i)

/-- C8, refuted as stated: user 3 applies for course 1, the application is
completed and reviewed, then moved back to `new`; the same user's second review
of the same application is answered "only for completed courses", not
"already reviewed", the test of the status coming before the test for an
earlier review.  One review row exists for the pair all along. -/
theorem repeated_review_after_reopening :
    (postReviews noFailure
        (run (Store.initial [⟨3, Role.user⟩] [⟨1, true⟩])
          [Request.create noFailure (fun _ => none) (Zone.fixed 0) 0 3 1 "1970-01-01" "cash",
           Request.transition noFailure 5 1 (some "completed") none])
        3 1 (some 5)).response = ReviewResponse.created 1 ∧
    (postReviews noFailure
        (run (Store.initial [⟨3, Role.user⟩] [⟨1, true⟩])
          [Request.create noFailure (fun _ => none) (Zone.fixed 0) 0 3 1 "1970-01-01" "cash",
           Request.transition noFailure 5 1 (some "completed") none,
           Request.review noFailure 3 1 (some 5),
           Request.transition noFailure 7 1 (some "new") none])
        3 1 (some 5)).response = ReviewResponse.notCompleted ∧
    (existingReviews
        (run (Store.initial [⟨3, Role.user⟩] [⟨1, true⟩])
          [Request.create noFailure (fun _ => none) (Zone.fixed 0) 0 3 1 "1970-01-01" "cash",
           Request.transition noFailure 5 1 (some "completed") none,
           Request.review noFailure 3 1 (some 5),
           Request.transition noFailure 7 1 (some "new") none])
        1 3).length = 1 := by
  refine ⟨by decide, by decide, by decide⟩

/-- C8, amended. At most one review per application: in every store reached
from a store without applications by any list of creation, status and review
requests, under any failures, each application has at most one review row.
When a review request succeeded there, then after any further requests a
request by the same user for the same application never inserts a row and
leaves the store as it is, and exactly one row exists for the pair; with a
rating from 1 to 5 and no failing read it is answered "already reviewed" while
the application is `completed`, in particular when it follows the successful
request at once, and "only for completed courses" once the application has been
moved out of `completed`. -/
theorem one_review_per_application (users : List User) (courses : List Course)
    (reqs reqs2 : List Request) (fails fails2 : DbCall → Bool)
    (userId applicationId k : Nat) (r : ℚ) (rating2 : Option ℚ) :
    (∀ i, (reviewsOf (run (Store.initial users courses) reqs) i).length ≤ 1) ∧
    (∀ db0 db1 db2 : Store, db0 = run (Store.initial users courses) reqs →
      (postReviews fails db0 userId applicationId (some r)).response
        = ReviewResponse.created k →
      db1 = (postReviews fails db0 userId applicationId (some r)).store →
      db2 = run db1 reqs2 →
      (postReviews fails2 db2 userId applicationId rating2).store = db2 ∧
      (∀ k2, (postReviews fails2 db2 userId applicationId rating2).response
        ≠ ReviewResponse.created k2) ∧
      (existingReviews db2 applicationId userId).length = 1 ∧
      (∀ q, rating2 = some q → 1 ≤ q → q ≤ 5 →
        fails2 DbCall.selectApplication = false → fails2 DbCall.selectReviews = false →
        ∃ app, (ownedApplications db2 applicationId userId).head? = some app ∧
          (app.status = Status.completed →
            (postReviews fails2 db2 userId applicationId rating2).response
              = ReviewResponse.alreadyReviewed) ∧
          (app.status ≠ Status.completed →
            (postReviews fails2 db2 userId applicationId rating2).response
              = ReviewResponse.notCompleted)) ∧
      (reqs2 = [] → ∀ q, rating2 = some q → 1 ≤ q → q ≤ 5 →
        fails2 DbCall.selectApplication = false → fails2 DbCall.selectReviews = false →
        (postReviews fails2 db2 userId applicationId rating2).response
          = ReviewResponse.alreadyReviewed)) := by
  have hinv0 := reviewInv_run reqs _ (reviewInv_initial users courses)
  constructor
  · intro i
    exact reviewsOf_length_le_one hinv0 i
  · intro db0 db1 db2 h0 hfirst h1 h2
    rw [← h0] at hinv0
    rcases review_store_cases fails db0 userId applicationId (some r) with
      ⟨_, hno⟩ | ⟨r1, app, hr, hu, hi, _, happ, hdone, hnone, _, he⟩
    · exact absurd hfirst (hno k)
    cases hr
    rw [he] at h1
    have hinv1 : db1.ReviewInv := by
      rw [h1]
      exact reviewInv_insertReview hinv0 userId applicationId r app happ hnone
    have hinv2 : db2.ReviewInv := by
      rw [h2]
      exact reviewInv_run reqs2 db1 hinv1
    have happ_mem := List.mem_of_mem_head? happ
    unfold ownedApplications at happ_mem
    rw [List.mem_filter] at happ_mem
    have happ_cond : app.application_id = applicationId ∧ app.user_id = userId := by
      simpa using happ_mem.2
    have hrow1 : (⟨db0.nextReviewId, userId, applicationId, r⟩ : Review) ∈ db1.reviews := by
      rw [h1]
      simp [insertReview]
    have hrow2 : (⟨db0.nextReviewId, userId, applicationId, r⟩ : Review) ∈ db2.reviews := by
      rw [h2]
      exact run_keeps_reviews reqs2 db1 _ hrow1
    have hex_mem : (⟨db0.nextReviewId, userId, applicationId, r⟩ : Review)
        ∈ existingReviews db2 applicationId userId := by
      unfold existingReviews
      rw [List.mem_filter]
      exact ⟨hrow2, by simp⟩
    have hex_pos : 0 < (existingReviews db2 applicationId userId).length :=
      List.length_pos_of_mem hex_mem
    have hex_one : (existingReviews db2 applicationId userId).length = 1 :=
      Nat.le_antisymm (existingReviews_length_le_one hinv2 applicationId userId) hex_pos
    have hown1 : ∃ a ∈ db1.applications, a.application_id = applicationId ∧
        a.user_id = userId := by
      rw [h1]
      exact ⟨app, happ_mem.1, happ_cond.1, happ_cond.2⟩
    have hown2 : ∃ a ∈ db2.applications, a.application_id = applicationId ∧
        a.user_id = userId := by
      rw [h2]
      exact run_keeps_owner reqs2 db1 applicationId userId hown1
    have hhead2 : ∃ app2, (ownedApplications db2 applicationId userId).head? = some app2 := by
      obtain ⟨a, ha, hai, hau⟩ := hown2
      have hmem : a ∈ ownedApplications db2 applicationId userId := by
        unfold ownedApplications
        rw [List.mem_filter]
        exact ⟨ha, by simp [hai, hau]⟩
      cases hl : ownedApplications db2 applicationId userId with
      | nil => rw [hl] at hmem; cases hmem
      | cons x xs => exact ⟨x, rfl⟩
    have hkeep : (postReviews fails2 db2 userId applicationId rating2).store = db2 ∧
        ∀ k2, (postReviews fails2 db2 userId applicationId rating2).response
          ≠ ReviewResponse.created k2 := by
      rcases review_store_cases fails2 db2 userId applicationId rating2 with
        hk | ⟨_, _, _, _, _, _, _, _, hnone2, _, _⟩
      · exact hk
      · rw [hnone2] at hex_pos
        cases hex_pos
    have hanswer : ∀ q, rating2 = some q → 1 ≤ q → q ≤ 5 →
        fails2 DbCall.selectApplication = false → fails2 DbCall.selectReviews = false →
        ∃ app2, (ownedApplications db2 applicationId userId).head? = some app2 ∧
          (app2.status = Status.completed →
            (postReviews fails2 db2 userId applicationId rating2).response
              = ReviewResponse.alreadyReviewed) ∧
          (app2.status ≠ Status.completed →
            (postReviews fails2 db2 userId applicationId rating2).response
              = ReviewResponse.notCompleted) := by
      intro q hq hq1 hq5 f1 f2
      subst hq
      obtain ⟨app2, happ2⟩ := hhead2
      have hq0 : q ≠ 0 := by
        intro h
        rw [h] at hq1
        exact absurd hq1 (by norm_num)
      have hlt : ¬ q < 1 := not_lt.mpr hq1
      have hgt : ¬ q > 5 := not_lt.mpr hq5
      refine ⟨app2, happ2, ?_, ?_⟩
      · intro hst
        unfold postReviews
        simp [hu, hi, hq0, hlt, hgt, f1, f2, happ2, hst, hex_pos]
      · intro hst
        unfold postReviews
        simp [hu, hi, hq0, hlt, hgt, f1, happ2, hst]
    refine ⟨hkeep.1, hkeep.2, hex_one, hanswer, ?_⟩
    intro hnil q hq hq1 hq5 f1 f2
    obtain ⟨app2, happ2, hyes, _⟩ := hanswer q hq hq1 hq5 f1 f2
    apply hyes
    rw [hnil] at h2
    have hsame : ownedApplications db2 applicationId userId
        = ownedApplications db0 applicationId userId := by
      rw [h2, h1]
      rfl
    rw [hsame, happ] at happ2
    cases happ2
    exact hdone

/-- C8 amended, on a run: user 3 applies for course 1, the application is
completed and reviewed; after it is moved back to `new`, exactly one review row
exists for the pair and a second review by user 3 leaves the store as it is. -/
theorem one_review_per_application_witness :
    (existingReviews
        (run (Store.initial [⟨3, Role.user⟩] [⟨1, true⟩])
          [Request.create noFailure (fun _ => none) (Zone.fixed 0) 0 3 1 "1970-01-01" "cash",
           Request.transition noFailure 5 1 (some "completed") none,
           Request.review noFailure 3 1 (some 5),
           Request.transition noFailure 7 1 (some "new") none]) 1 3).length = 1 :=
  ((one_review_per_application [⟨3, Role.user⟩] [⟨1, true⟩]
    [Request.create noFailure (fun _ => none) (Zone.fixed 0) 0 3 1 "1970-01-01" "cash",
     Request.transition noFailure 5 1 (some "completed") none]
    [Request.transition noFailure 7 1 (some "new") none]
    noFailure noFailure 3 1 1 5 (some 4)).2 _ _ _ rfl (by decide) rfl rfl).2.2.1

/-! ## The history count and the creation handler -/

/-- C6, at the failing input.  The creation handler writes its two rows through
the pool, outside any transaction: when the insert of the creation entry fails
after the insert of the application went through, the 500-style answer is sent
and the application 1 stays in the committed store with no history row at all;
a later real status change of it then leaves one history row, whose old status
is not null, where the count of the claim is two and its oldest row has a null
old status. -/
theorem create_history_insert_failure :
    (postApplications (fun c => c == DbCall.insertCreationHistory) (fun _ => none) (Zone.fixed 0) 0
        (Store.initial [⟨3, Role.user⟩] [⟨1, true⟩]) 3 1 "1970-01-01" "cash").response
      = CreateResponse.serverError ∧
    currentApps
        (postApplications (fun c => c == DbCall.insertCreationHistory) (fun _ => none) (Zone.fixed 0) 0
          (Store.initial [⟨3, Role.user⟩] [⟨1, true⟩]) 3 1 "1970-01-01" "cash").store 1
      = [⟨1, 3, 1, "1970-01-01", PaymentMethod.cash, Status.new, 0⟩] ∧
    historyOf
        (postApplications (fun c => c == DbCall.insertCreationHistory) (fun _ => none) (Zone.fixed 0) 0
          (Store.initial [⟨3, Role.user⟩] [⟨1, true⟩]) 3 1 "1970-01-01" "cash").store 1
      = [] ∧
    historyOf
        (run (Store.initial [⟨3, Role.user⟩] [⟨1, true⟩])
          [Request.create (fun c => c == DbCall.insertCreationHistory) (fun _ => none) (Zone.fixed 0) 0
             3 1 "1970-01-01" "cash",
           Request.transition noFailure 5 1 (some "in_progress") none]) 1
      = [⟨1, some Status.new, Status.in_progress, none, systemComment⟩] := by
  refine ⟨by decide, by decide, by decide, by decide⟩

theorem changed_eq_false {r : StatusResponse}
    (h : ∀ i o n, r ≠ StatusResponse.updated i o n) : r.changed = false := by
  cases r with
  | updated i o n => exact absurd rfl (h i o n)
  | _ => rfl

theorem historyInv_congr {db : Store} {n m : Nat → Nat} (h : db.HistoryInv n)
    (hnm : ∀ i, m i = n i) : db.HistoryInv m := by
  have : m = n := funext hnm
  rw [this]
  exact h

theorem historyInv_initial (users : List User) (courses : List Course) :
    (Store.initial users courses).HistoryInv (fun _ => 0) :=
  ⟨initial_wf users courses, by simp [Store.initial], fun _ _ => rfl,
    by simp [Store.initial]⟩

theorem historyOf_eq_nil_of_fresh {db : Store}
    (h : ∀ e ∈ db.history, e.application_id < db.nextApplicationId) :
    historyOf db db.nextApplicationId = [] := by
  unfold historyOf
  rw [List.filter_eq_nil_iff]
  intro e he hc
  have h1 := h e he
  have h2 : e.application_id = db.nextApplicationId := by simpa using hc
  omega

theorem historyInv_create {db : Store} {n : Nat → Nat} (h : db.HistoryInv n) (now : Int)
    (u c : Nat) (sd : String) (pm : PaymentMethod) (hu : u ≠ 0) (who : Option Nat)
    (comment : String) :
    (insertStatusHistory
      { application_id := db.nextApplicationId, old_status := none, new_status := Status.new,
        changed_by := who, change_comment := comment }
      (insertApplication now u c sd pm db)).HistoryInv n := by
  refine ⟨wf_insertStatusHistory (wf_insertApplication h.wf now u c sd pm hu) _, ?_, ?_, ?_⟩
  · intro e he
    simp only [insertStatusHistory, insertApplication, List.mem_append,
      List.mem_singleton] at he
    show e.application_id < db.nextApplicationId + 1
    rcases he with he | rfl
    · exact Nat.lt_succ_of_lt (h.allocated e he)
    · exact Nat.lt_succ_self _
  · intro i hi
    apply h.unused i
    intro a ha
    exact hi a (by simp [insertStatusHistory, insertApplication, ha])
  · intro a ha
    simp only [insertStatusHistory, insertApplication, List.mem_append,
      List.mem_singleton] at ha
    rcases ha with ha | rfl
    · have hne : db.nextApplicationId ≠ a.application_id :=
        fun e => absurd (h.wf.ids_lt a ha) (by rw [← e]; exact Nat.lt_irrefl _)
      rw [historyOf_insert_other _ _ _ hne]
      exact h.counted a ha
    · refine ⟨(⟨db.nextApplicationId, none, Status.new, who, comment⟩ : StatusHistoryEntry),
        [], ?_, rfl, by simp, ?_⟩
      · have hs := historyOf_insert_same
          { application_id := db.nextApplicationId, old_status := none,
            new_status := Status.new, changed_by := who, change_comment := comment }
          (insertApplication now u c sd pm db)
        have hnil : historyOf (insertApplication now u c sd pm db) db.nextApplicationId
            = [] := historyOf_eq_nil_of_fresh h.allocated
        rw [hnil] at hs
        exact hs
      · symm
        apply h.unused
        intro a ha
        exact Nat.ne_of_lt (h.wf.ids_lt a ha)

theorem historyInv_change {db : Store} {n : Nat → Nat} (h : db.HistoryInv n) (now : Int)
    (i : Nat) (row : Application) (st : Status) (who : Option Nat) (comment : String)
    (hrow : (currentApps db i).head? = some row) :
    (insertStatusHistory
      { application_id := i, old_status := some row.status, new_status := st,
        changed_by := who, change_comment := comment }
      (updateApplicationStatus now st i db)).HistoryInv
      (fun j => n j + if (i == j) = true then 1 else 0) := by
  have hmem := List.mem_of_mem_head? hrow
  unfold currentApps at hmem
  rw [List.mem_filter] at hmem
  obtain ⟨hrow_mem, hrow_id⟩ := hmem
  have hrow_id : row.application_id = i := by simpa using hrow_id
  refine ⟨wf_insertStatusHistory (wf_update h.wf now st i) _, ?_, ?_, ?_⟩
  · intro e he
    simp only [insertStatusHistory, updateApplicationStatus, List.mem_append,
      List.mem_singleton] at he
    show e.application_id < db.nextApplicationId
    rcases he with he | rfl
    · exact h.allocated e he
    · show i < db.nextApplicationId
      rw [← hrow_id]
      exact h.wf.ids_lt row hrow_mem
  · intro j hj
    have hold : ∀ a ∈ db.applications, a.application_id ≠ j := by
      intro a ha
      have := hj (setStatus now st i a) (by
        show setStatus now st i a ∈ (updateApplicationStatus now st i db).applications
        rw [update_applications]
        exact List.mem_map_of_mem _ ha)
      rwa [setStatus_id] at this
    have hij : ¬ i = j := by
      intro e
      exact hold row hrow_mem (by rw [hrow_id, e])
    simp [h.unused j hold, hij]
  · intro a ha
    have ha2 : a ∈ (updateApplicationStatus now st i db).applications := ha
    rw [update_applications, List.mem_map] at ha2
    obtain ⟨b, hb, rfl⟩ := ha2
    rw [setStatus_id]
    obtain ⟨first, rest, hhist, hfirst, hrest, hlen⟩ := h.counted b hb
    by_cases hbi : i = b.application_id
    · refine ⟨first,
        rest ++ [(⟨i, some row.status, st, who, comment⟩ : StatusHistoryEntry)],
        ?_, hfirst, ?_, ?_⟩
      · have hs := historyOf_insert_same
          { application_id := i, old_status := some row.status, new_status := st,
            changed_by := who, change_comment := comment }
          (updateApplicationStatus now st i db)
        have hupd : historyOf (updateApplicationStatus now st i db) i = historyOf db i := rfl
        rw [hupd] at hs
        rw [← hbi]
        rw [hs, hbi, hhist]
        rfl
      · intro e he
        rcases List.mem_append.mp he with he | he
        · exact hrest e he
        · rw [List.mem_singleton] at he
          rw [he]
          simp
      · simp [hlen, hbi]
    · refine ⟨first, rest, ?_, hfirst, hrest, ?_⟩
      · rw [historyOf_insert_other _ _ _ hbi]
        exact hhist
      · simp [hlen, hbi]

/-- Serving a request that is not a creation with a failing insert of the
creation entry keeps the history invariant, the counter of an application
growing by one exactly when the request changes its status. -/
theorem historyInv_apply {db : Store} {n : Nat → Nat} (h : db.HistoryInv n) (req : Request)
    (hreq : req.pairsCreation = true) :
    (req.apply db).HistoryInv (fun j => n j + if req.changes j db = true then 1 else 0) := by
  cases req with
  | create fails otherDate zone now userId courseId startDate paymentMethod =>
    apply historyInv_congr (n := n) ?_ (by intro j; simp [Request.changes])
    show (postApplications fails otherDate zone now db userId courseId startDate
      paymentMethod).store.HistoryInv n
    rcases create_store_cases fails otherDate zone now db userId courseId startDate
      paymentMethod with he | ⟨pm, hu, ⟨hf, _⟩ | he⟩
    · rw [he]; exact h
    · simp [Request.pairsCreation, hf] at hreq
    · rw [he]
      exact historyInv_create h now userId courseId startDate pm hu _ _
  | transition fails now applicationId newStatus adminId =>
    show (putAdminApplicationsStatus fails now db applicationId newStatus
      adminId).store.HistoryInv (fun j => n j + if (applicationId == j &&
        (putAdminApplicationsStatus fails now db applicationId newStatus
          adminId).response.changed) = true then 1 else 0)
    refine @transition_elim (fun out => out.store.HistoryInv (fun j => n j +
        if (applicationId == j && out.response.changed) = true then 1 else 0))
      fails now db applicationId newStatus adminId ?_ ?_
    · intro r _ hr
      apply historyInv_congr h
      intro j
      simp [changed_eq_false hr]
    · intro _ newSt row _ _ _ hrow _
      apply historyInv_congr (historyInv_change h now applicationId row newSt _ _ hrow)
      intro j
      simp [StatusResponse.changed]
  | review fails userId applicationId rating =>
    apply historyInv_congr (n := n) ?_ (by intro j; simp [Request.changes])
    show (postReviews fails db userId applicationId rating).store.HistoryInv n
    rcases review_store_cases fails db userId applicationId rating with
      ⟨he, _⟩ | ⟨r, _, _, _, _, _, _, _, _, _, he⟩
    · rw [he]; exact h
    · rw [he]
      exact ⟨wf_insertReview h.wf userId applicationId r, h.allocated, h.unused, h.counted⟩

theorem historyInv_run (reqs : List Request) :
    ∀ (db : Store) (n : Nat → Nat), db.HistoryInv n →
      (∀ req ∈ reqs, req.pairsCreation = true) →
      (run db reqs).HistoryInv (fun j => n j + changeCount j db reqs) := by
  induction reqs with
  | nil =>
    intro db n h _
    exact historyInv_congr h (by intro j; simp [changeCount])
  | cons req rest ih =>
    intro db n h hall
    have hstep := historyInv_apply h req (hall req (List.mem_cons_self _ _))
    have hrest := ih (req.apply db) _ hstep
      (fun r hr => hall r (List.mem_cons_of_mem _ hr))
    apply historyInv_congr hrest
    intro j
    simp only [changeCount]
    omega

/-- The history count along runs whose creations are never cut between their
two inserts: from a store without applications, whatever else fails, every
application has one history row with a null old status, the oldest, followed by
as many rows with a non-null old status as there were requests that changed its
status. -/
theorem history_count_of_paired_creations (users : List User) (courses : List Course)
    (reqs : List Request) (hall : ∀ req ∈ reqs, req.pairsCreation = true)
    (a : Application) (ha : a ∈ (run (Store.initial users courses) reqs).applications) :
    ∃ first rest,
      historyOf (run (Store.initial users courses) reqs) a.application_id = first :: rest ∧
      first.old_status = none ∧ (∀ e ∈ rest, e.old_status ≠ none) ∧
      rest.length = changeCount a.application_id (Store.initial users courses) reqs := by
  have h := historyInv_run reqs _ _ (historyInv_initial users courses) hall
  obtain ⟨first, rest, h1, h2, h3, h4⟩ := h.counted a ha
  exact ⟨first, rest, h1, h2, h3, by simpa using h4⟩

/-! ## The value returned by the status handler -/

/-- C11, refuted as stated: asking for `completed` on the completed application
9 succeeds, and the response body has no `data`, hence reports neither an old
nor a new status. -/
theorem transition_noop_reports_no_status :
    (putAdminApplicationsStatus noFailure 100 demoStore 9 (some "completed") (some 8)).response.success
      = true ∧
    (putAdminApplicationsStatus noFailure 100 demoStore 9 (some "completed") (some 8)).response
      = StatusResponse.alreadySet ∧
    (putAdminApplicationsStatus noFailure 100 demoStore 9 (some "completed") (some 8)).response.data?
      = none := by
  refine ⟨by decide, by decide, by decide⟩

/-- C11, amended. On a sound store, for a stored application `a` and a requested
status of the enumeration, when no persistence call fails the call succeeds; if
the requested status differs from the current one the body carries `data` with
the key of `a`, its status before the call and the requested status; if it is
the current one the body is the success "already set" and carries no `data`.
Under any failures, a body with `data` names the requested application, the
status read before the call and the requested status, which differ. -/
theorem transition_return_value (fails : DbCall → Bool) (now : Int) (db : Store)
    (a : Application) (str : String) (newSt : Status) (adminId : Option Nat)
    (hwf : db.WF) (ha : a ∈ db.applications) (hs : Status.ofString? str = some newSt) :
    ((∀ c, fails c = false) →
      (putAdminApplicationsStatus fails now db a.application_id (some str) adminId).response.success
        = true) ∧
    ((∀ c, fails c = false) → newSt ≠ a.status →
      (putAdminApplicationsStatus fails now db a.application_id (some str) adminId).response.data?
        = some (a.application_id, a.status, newSt)) ∧
    ((∀ c, fails c = false) → newSt = a.status →
      (putAdminApplicationsStatus fails now db a.application_id (some str) adminId).response
        = StatusResponse.alreadySet ∧
      (putAdminApplicationsStatus fails now db a.application_id (some str) adminId).response.data?
        = none) ∧
    (∀ d, (putAdminApplicationsStatus fails now db a.application_id (some str) adminId).response.data?
        = some d → d = (a.application_id, a.status, newSt) ∧ newSt ≠ a.status) := by
  have hcur := currentApps_of_mem hwf ha
  have hstr := ofString?_ne_empty hs
  refine @transition_table (fun out =>
      ((∀ c, fails c = false) → out.response.success = true) ∧
      ((∀ c, fails c = false) → newSt ≠ a.status →
        out.response.data? = some (a.application_id, a.status, newSt)) ∧
      ((∀ c, fails c = false) → newSt = a.status →
        out.response = StatusResponse.alreadySet ∧ out.response.data? = none) ∧
      (∀ d, out.response.data? = some d →
        d = (a.application_id, a.status, newSt) ∧ newSt ≠ a.status))
    fails now db a.application_id (some str) adminId ?_ ?_ ?_ ?_ ?_ ?_ ?_
  · intro h
    exfalso
    rcases h with h | h
    · cases h
    · exact hstr (Option.some.inj h)
  · intro s hsome _ hnone
    cases hsome
    rw [hs] at hnone
    cases hnone
  · intro _ _ _ _ hf
    have hno : ¬ ∀ c, fails c = false := fun g => by rw [g _] at hf; cases hf
    exact ⟨fun g => absurd g hno, fun g => absurd g hno, fun g => absurd g hno,
      fun d hd => by cases hd⟩
  · intro _ _ pre c _ _ _ _ hf _ _ _
    have hno : ¬ ∀ c, fails c = false := by
      intro g
      rcases hf with hf | ⟨_, hf⟩
      · rw [g _] at hf; cases hf
      · rw [g _] at hf; cases hf
    have hnd := (catchBlock_not_success fails db (DbCall.getConnection :: (pre ++ [c]))).2.1
    refine ⟨fun g => absurd g hno, fun g => absurd g hno, fun g => absurd g hno, ?_⟩
    intro d hd
    rw [hnd] at hd
    cases hd
  · intro _ _ _ _ _ _ _ _ h
    rw [hcur] at h
    simp at h
  · intro s st row hsome hst _ _ _ _ hrow hrs
    cases hsome
    rw [hs] at hst
    rw [hcur] at hrow
    simp at hrow hst
    subst hrow
    subst hst
    exact ⟨fun _ => rfl, fun _ hne => absurd hrs.symm hne, fun _ _ => ⟨rfl, rfl⟩,
      fun d hd => by cases hd⟩
  · intro s st row pre hsome hst hrow hrs _ _ _ _ _ _ _ _
    cases hsome
    rw [hs] at hst
    rw [hcur] at hrow
    simp at hrow hst
    subst hrow
    subst hst
    refine ⟨fun _ => rfl, fun _ _ => rfl, fun _ he => absurd he.symm hrs, ?_⟩
    intro d hd
    simp only [StatusResponse.data?, Option.some.injEq] at hd
    exact ⟨hd.symm, fun he => hrs he.symm⟩

/-- C11 amended, on the demonstration store: moving the application 42 from
`in_progress` to `completed` is answered with both statuses. -/
theorem transition_return_value_witness :
    (putAdminApplicationsStatus noFailure 100 demoStore 42 (some "completed") (some 8)).response.data?
      = some (42, Status.in_progress, Status.completed) :=
  (transition_return_value noFailure 100 demoStore
    ⟨42, 3, 1, "2030-02-01", PaymentMethod.phone_transfer, Status.in_progress, 6⟩
    "completed" Status.completed (some 8) demoStore_wf (by decide) (by decide)).2.1
    (fun _ => rfl) (by decide)

/-! ## The round trip of the creation handler -/

theorem currentApps_eq_nil_of_fresh {db : Store} (hwf : db.WF) :
    currentApps db db.nextApplicationId = [] := by
  unfold currentApps
  rw [List.filter_eq_nil_iff]
  intro a ha hc
  have h1 := hwf.ids_lt a ha
  have h2 : a.application_id = db.nextApplicationId := by simpa using hc
  omega

/-- The round trip of a creation that passes the date test: on a sound store
whose history rows name allocated keys only, for an existing user, an existing
active course, a valid payment method and a start date that the comparison of
the handler does not refuse, when no persistence call fails the handler answers
with a key that no stored application has, the applications table gains exactly
the row with that key, the user, the course, the start date as sent, the
payment method and the status `new`, the history gains exactly the row for that
key with a null old status, the new status `new` and the creating user, and the
rows and the history of every other application are as before. -/
theorem create_round_trip (fails : DbCall → Bool) (otherDate : String → Option Int)
    (zone : Zone) (now : Int) (db : Store) (userId courseId : Nat)
    (startDate paymentMethod : String) (pm : PaymentMethod)
    (hwf : db.WF) (halloc : ∀ e ∈ db.history, e.application_id < db.nextApplicationId)
    (hu : ∃ u ∈ db.users, u.user_id = userId) (hu0 : 0 < userId)
    (hc : ∃ c ∈ db.courses, c.course_id = courseId ∧ c.is_active = true) (hc0 : 0 < courseId)
    (hpm : PaymentMethod.ofString? paymentMethod = some pm)
    (hd : startDate ≠ "")
    (hb : dateBefore (dateConstructor otherDate startDate) (setHoursZero zone now) = false)
    (hf : ∀ c, fails c = false) :
    (postApplications fails otherDate zone now db userId courseId startDate paymentMethod).response
      = CreateResponse.created db.nextApplicationId ∧
    (∀ a ∈ db.applications, a.application_id ≠ db.nextApplicationId) ∧
    (postApplications fails otherDate zone now db userId courseId startDate
        paymentMethod).store.applications
      = db.applications ++ [⟨db.nextApplicationId, userId, courseId, startDate, pm,
          Status.new, now⟩] ∧
    currentApps
        (postApplications fails otherDate zone now db userId courseId startDate paymentMethod).store
        db.nextApplicationId
      = [⟨db.nextApplicationId, userId, courseId, startDate, pm, Status.new, now⟩] ∧
    (postApplications fails otherDate zone now db userId courseId startDate
        paymentMethod).store.history
      = db.history ++ [⟨db.nextApplicationId, none, Status.new, some userId, createdComment⟩] ∧
    historyOf
        (postApplications fails otherDate zone now db userId courseId startDate paymentMethod).store
        db.nextApplicationId
      = [⟨db.nextApplicationId, none, Status.new, some userId, createdComment⟩] ∧
    (∀ j, j ≠ db.nextApplicationId →
      currentApps
          (postApplications fails otherDate zone now db userId courseId startDate
            paymentMethod).store j = currentApps db j ∧
      historyOf
          (postApplications fails otherDate zone now db userId courseId startDate
            paymentMethod).store j = historyOf db j) := by
  have hu1 : userId ≠ 0 := Nat.pos_iff_ne_zero.mp hu0
  have hc1 : courseId ≠ 0 := Nat.pos_iff_ne_zero.mp hc0
  have hp : paymentMethod ≠ "" := by
    rintro rfl
    simp [PaymentMethod.ofString?] at hpm
  have husers : (usersById db userId).length ≠ 0 := by
    obtain ⟨u, hmem, hid⟩ := hu
    have : u ∈ usersById db userId := by
      unfold usersById
      rw [List.mem_filter]
      exact ⟨hmem, by simp [hid]⟩
    exact Nat.pos_iff_ne_zero.mp (List.length_pos_of_mem this)
  have hcourses : (activeCourses db courseId).length ≠ 0 := by
    obtain ⟨c, hmem, hid, hact⟩ := hc
    have : c ∈ activeCourses db courseId := by
      unfold activeCourses
      rw [List.mem_filter]
      exact ⟨hmem, by simp [hid, hact]⟩
    exact Nat.pos_iff_ne_zero.mp (List.length_pos_of_mem this)
  have hout : postApplications fails otherDate zone now db userId courseId startDate
      paymentMethod
      = ⟨CreateResponse.created db.nextApplicationId,
          insertStatusHistory
            { application_id := db.nextApplicationId, old_status := none,
              new_status := Status.new, changed_by := some userId,
              change_comment := createdComment }
            (insertApplication now userId courseId startDate pm db),
          [DbCall.selectUser, DbCall.selectCourse, DbCall.insertApplication,
            DbCall.insertCreationHistory]⟩ := by
    unfold postApplications
    simp [hu1, hc1, hd, hp, hpm, hf, husers, hcourses, hb]
  have hfresh : ∀ a ∈ db.applications, a.application_id ≠ db.nextApplicationId :=
    fun a ha => Nat.ne_of_lt (hwf.ids_lt a ha)
  rw [hout]
  refine ⟨rfl, hfresh, rfl, ?_, rfl, ?_, ?_⟩
  · have hnil := currentApps_eq_nil_of_fresh hwf
    unfold currentApps at hnil ⊢
    simp [insertStatusHistory, insertApplication, List.filter_append, hnil]
  · have hnil := historyOf_eq_nil_of_fresh halloc
    unfold historyOf at hnil ⊢
    simp [insertStatusHistory, insertApplication, List.filter_append, hnil]
  · intro j hj
    have hj2 : ¬ db.nextApplicationId = j := fun e => hj e.symm
    constructor
    · unfold currentApps
      simp [insertStatusHistory, insertApplication, List.filter_append, hj2]
    · unfold historyOf
      simp [insertStatusHistory, insertApplication, List.filter_append, hj2]

/-- The round trip on the demonstration store, for a clock five hours ahead of
UTC that shows noon of 2030-01-15 and the start date `2030-01-15`: the date
test is passed and the answer carries the next key, 43. -/
theorem create_round_trip_ahead_of_utc :
    (postApplications noFailure (fun _ => none) (Zone.fixed 18000000) 1894690800000
        demoStore 3 1 "2030-01-15" "cash").response = CreateResponse.created 43 :=
  (create_round_trip noFailure (fun _ => none) (Zone.fixed 18000000) 1894690800000
    demoStore 3 1 "2030-01-15" "cash"
    PaymentMethod.cash demoStore_wf (by decide)
    ⟨⟨3, Role.user⟩, by decide, rfl⟩ (by decide)
    ⟨⟨1, true⟩, by decide, rfl, rfl⟩ (by decide)
    (by decide) (by decide) (by decide) (fun _ => rfl)).1

/-- C12, at the failing input.  The server clock is five hours behind UTC and
shows noon of 2030-01-15; user 3 and the active course 1 exist, the payment
method is `cash`, no persistence call fails, and the start date sent is
`2030-01-15`, today's date on that clock, hence not in the past.  The creation
does not succeed: the answer is the refusal of a past date, no key is returned,
and neither an application row nor a history row is written. -/
theorem create_today_behind_utc_writes_nothing :
    isoDateOnly "2030-01-15" = some 21929 ∧
    localDay (Zone.fixed (-18000000)) 1894726800000 = 21929 ∧
    (postApplications noFailure (fun _ => none) (Zone.fixed (-18000000)) 1894726800000
        demoStore 3 1 "2030-01-15" "cash").response.success = false ∧
    (postApplications noFailure (fun _ => none) (Zone.fixed (-18000000)) 1894726800000
        demoStore 3 1 "2030-01-15" "cash").store.applications = demoStore.applications ∧
    (postApplications noFailure (fun _ => none) (Zone.fixed (-18000000)) 1894726800000
        demoStore 3 1 "2030-01-15" "cash").store.history = demoStore.history ∧
    (postApplications noFailure (fun _ => none) (Zone.fixed (-18000000)) 1894726800000
        demoStore 3 1 "2030-01-15" "cash").calls = [DbCall.selectUser, DbCall.selectCourse] := by
  refine ⟨by decide, by decide, by decide, by decide, by decide, by decide⟩

/-! ## The audit trail -/

theorem auditTrail_creation (i : Nat) (who : Option Nat) (comment : String) :
    AuditTrail [(⟨i, none, Status.new, who, comment⟩ : StatusHistoryEntry)] Status.new :=
  ⟨⟨_, [], rfl, rfl, rfl⟩, List.chain'_singleton _, rfl⟩

theorem auditTrail_append {l : List StatusHistoryEntry} {s : Status}
    (h : AuditTrail l s) (i : Nat) (st : Status) (who : Option Nat) (comment : String)
    (hne : s ≠ st) :
    AuditTrail (l ++ [(⟨i, some s, st, who, comment⟩ : StatusHistoryEntry)]) st := by
  obtain ⟨e0, rest, hl, h0, h1⟩ := h.first
  refine ⟨⟨e0, rest ++ [⟨i, some s, st, who, comment⟩], by rw [hl]; rfl, h0, h1⟩, ?_, ?_⟩
  · apply List.Chain'.append h.linked (List.chain'_singleton _)
    intro x hx y hy
    simp only [List.head?_cons, Option.mem_def, Option.some.injEq] at hy
    subst hy
    have hlast := h.last
    rw [Option.mem_def] at hx
    rw [hx] at hlast
    simp only [Option.map_some', Option.some.injEq] at hlast
    refine ⟨?_, ?_⟩
    · show some s = some x.new_status
      rw [hlast]
    · show some s ≠ some st
      intro e
      exact hne (Option.some.inj e)
  · rw [List.getLast?_concat]
    rfl

theorem setStatus_status_same (now : Int) (st : Status) (i : Nat) (a : Application)
    (h : a.application_id = i) : (setStatus now st i a).status = st := by
  simp [setStatus, h]

theorem setStatus_status_other (now : Int) (st : Status) (i : Nat) (a : Application)
    (h : a.application_id ≠ i) : (setStatus now st i a).status = a.status := by
  simp [setStatus, h]

theorem chainInv_initial (users : List User) (courses : List Course) :
    (Store.initial users courses).ChainInv :=
  ⟨initial_wf users courses, by simp [Store.initial], by simp [Store.initial]⟩

theorem chainInv_create {db : Store} (h : db.ChainInv) (now : Int)
    (u c : Nat) (sd : String) (pm : PaymentMethod) (hu : u ≠ 0) (who : Option Nat)
    (comment : String) :
    (insertStatusHistory
      { application_id := db.nextApplicationId, old_status := none, new_status := Status.new,
        changed_by := who, change_comment := comment }
      (insertApplication now u c sd pm db)).ChainInv := by
  refine ⟨wf_insertStatusHistory (wf_insertApplication h.wf now u c sd pm hu) _, ?_, ?_⟩
  · intro e he
    simp only [insertStatusHistory, insertApplication, List.mem_append,
      List.mem_singleton] at he
    show e.application_id < db.nextApplicationId + 1
    rcases he with he | rfl
    · exact Nat.lt_succ_of_lt (h.allocated e he)
    · exact Nat.lt_succ_self _
  · intro a ha
    simp only [insertStatusHistory, insertApplication, List.mem_append,
      List.mem_singleton] at ha
    rcases ha with ha | rfl
    · have hne : db.nextApplicationId ≠ a.application_id :=
        fun e => absurd (h.wf.ids_lt a ha) (by rw [← e]; exact Nat.lt_irrefl _)
      rw [historyOf_insert_other _ _ _ hne]
      exact h.trails a ha
    · have hs := historyOf_insert_same
        { application_id := db.nextApplicationId, old_status := none,
          new_status := Status.new, changed_by := who, change_comment := comment }
        (insertApplication now u c sd pm db)
      have hnil : historyOf (insertApplication now u c sd pm db) db.nextApplicationId
          = [] := historyOf_eq_nil_of_fresh h.allocated
      rw [hnil] at hs
      show AuditTrail (historyOf _ db.nextApplicationId) Status.new
      rw [hs]
      exact auditTrail_creation _ _ _

theorem chainInv_change {db : Store} (h : db.ChainInv) (now : Int)
    (i : Nat) (row : Application) (st : Status) (who : Option Nat) (comment : String)
    (hrow : (currentApps db i).head? = some row) (hne : row.status ≠ st) :
    (insertStatusHistory
      { application_id := i, old_status := some row.status, new_status := st,
        changed_by := who, change_comment := comment }
      (updateApplicationStatus now st i db)).ChainInv := by
  have hmem := List.mem_of_mem_head? hrow
  unfold currentApps at hmem
  rw [List.mem_filter] at hmem
  obtain ⟨hrow_mem, hrow_id⟩ := hmem
  have hrow_id : row.application_id = i := by simpa using hrow_id
  refine ⟨wf_insertStatusHistory (wf_update h.wf now st i) _, ?_, ?_⟩
  · intro e he
    simp only [insertStatusHistory, updateApplicationStatus, List.mem_append,
      List.mem_singleton] at he
    show e.application_id < db.nextApplicationId
    rcases he with he | rfl
    · exact h.allocated e he
    · show i < db.nextApplicationId
      rw [← hrow_id]
      exact h.wf.ids_lt row hrow_mem
  · intro a ha
    have ha2 : a ∈ (updateApplicationStatus now st i db).applications := ha
    rw [update_applications, List.mem_map] at ha2
    obtain ⟨b, hb, rfl⟩ := ha2
    rw [setStatus_id]
    by_cases hbi : b.application_id = i
    · have hb_row : b = row := eq_of_application_id_eq h.wf hb hrow_mem (by rw [hbi, hrow_id])
      rw [setStatus_status_same now st i b hbi, hbi]
      have hs := historyOf_insert_same
        { application_id := i, old_status := some row.status, new_status := st,
          changed_by := who, change_comment := comment }
        (updateApplicationStatus now st i db)
      have hupd : historyOf (updateApplicationStatus now st i db) i = historyOf db i := rfl
      rw [hupd] at hs
      rw [hs]
      have htrail := h.trails row hrow_mem
      rw [hrow_id] at htrail
      exact auditTrail_append htrail i st who comment hne
    · rw [setStatus_status_other now st i b hbi,
        historyOf_insert_other _ _ _ (fun e => hbi e.symm)]
      exact h.trails b hb

/-- Serving a request that is not a creation with a failing insert of the
creation entry keeps the audit-trail invariant. -/
theorem chainInv_apply {db : Store} (h : db.ChainInv) (req : Request)
    (hreq : req.pairsCreation = true) : (req.apply db).ChainInv := by
  cases req with
  | create fails otherDate zone now userId courseId startDate paymentMethod =>
    show (postApplications fails otherDate zone now db userId courseId startDate
      paymentMethod).store.ChainInv
    rcases create_store_cases fails otherDate zone now db userId courseId startDate
      paymentMethod with he | ⟨pm, hu, ⟨hf, _⟩ | he⟩
    · rw [he]; exact h
    · simp [Request.pairsCreation, hf] at hreq
    · rw [he]
      exact chainInv_create h now userId courseId startDate pm hu _ _
  | transition fails now applicationId newStatus adminId =>
    show (putAdminApplicationsStatus fails now db applicationId newStatus
      adminId).store.ChainInv
    refine @transition_elim (fun out => out.store.ChainInv) fails now db applicationId
      newStatus adminId ?_ ?_
    · intro _ _ _
      exact h
    · intro _ newSt row _ _ _ hrow hne
      exact chainInv_change h now applicationId row newSt _ _ hrow hne
  | review fails userId applicationId rating =>
    show (postReviews fails db userId applicationId rating).store.ChainInv
    rcases review_store_cases fails db userId applicationId rating with
      ⟨he, _⟩ | ⟨r, _, _, _, _, _, _, _, _, _, he⟩
    · rw [he]; exact h
    · rw [he]
      exact ⟨wf_insertReview h.wf userId applicationId r, h.allocated, h.trails⟩

theorem chainInv_run (reqs : List Request) :
    ∀ db : Store, db.ChainInv → (∀ req ∈ reqs, req.pairsCreation = true) →
      (run db reqs).ChainInv := by
  induction reqs with
  | nil => intro db h _; exact h
  | cons req rest ih =>
    intro db h hall
    exact ih (req.apply db) (chainInv_apply h req (hall req (List.mem_cons_self _ _)))
      (fun r hr => hall r (List.mem_cons_of_mem _ hr))

/-- C13. The audit trail agrees with the current status: in every store reached
from a store without applications by any list of requests in which no creation
has its insert of the creation entry fail (in particular when no persistence
call fails at all), the history rows of every application, in insertion order,
start with a row from null to `new`, every later row starts from the status the
row before it ended in and ends in a different one, and the last row ends in
the current status of the application. -/
theorem audit_trail_chain (users : List User) (courses : List Course)
    (reqs : List Request) (hall : ∀ req ∈ reqs, req.pairsCreation = true)
    (a : Application) (ha : a ∈ (run (Store.initial users courses) reqs).applications) :
    AuditTrail (historyOf (run (Store.initial users courses) reqs) a.application_id)
      a.status :=
  (chainInv_run reqs _ (chainInv_initial users courses) hall).trails a ha

/-- C13, on a run: user 3 applies for course 1, the application is completed and
then moved back to `new`; its three history rows form an audit trail ending in
`new`. -/
theorem audit_trail_chain_witness :
    AuditTrail
      (historyOf
        (run (Store.initial [⟨3, Role.user⟩] [⟨1, true⟩])
          [Request.create noFailure (fun _ => none) (Zone.fixed 0) 0 3 1 "1970-01-01" "cash",
           Request.transition noFailure 5 1 (some "completed") none,
           Request.transition noFailure 7 1 (some "new") (some 0)]) 1)
      Status.new :=
  audit_trail_chain [⟨3, Role.user⟩] [⟨1, true⟩]
    [Request.create noFailure (fun _ => none) (Zone.fixed 0) 0 3 1 "1970-01-01" "cash",
     Request.transition noFailure 5 1 (some "completed") none,
     Request.transition noFailure 7 1 (some "new") (some 0)]
    (by
      intro req hreq
      simp only [List.mem_cons, List.mem_singleton, List.not_mem_nil, or_false] at hreq
      rcases hreq with rfl | rfl | rfl <;> rfl)
    ⟨1, 3, 1, "1970-01-01", PaymentMethod.cash, Status.new, 7⟩ (by decide)

end Korka
